import Mathlib

/-!
# Arduino DS1620 driver: shallow embedding of `ds1620.cpp`

The driver bit-bangs the DS1620 three-wire protocol through the Arduino calls
`pinMode`, `digitalWrite`, `digitalRead` and `delay`.  Those calls are the only
effects of the program, so the embedding threads a `World` through every
function: the world records every call in order (`trace`) and supplies the
levels that `digitalRead` will observe (`dq`).

C `int` and `short` are modelled by `Int`.  The library targets the AVR
Arduino (`WProgram.h`), where both are 16 bits wide; the two places where a
value is narrowed or may leave that range (`(short)` conversions and the
threshold scaling `temp * 2`) go through `wrap16`.  `>>` on `int` is the
arithmetic shift, `&` and `|` are the two's-complement `Int.land`/`Int.lor`,
and `/` is C division, which truncates toward zero (`Int.tdiv`).
-/

namespace DS1620

/-! ## Platform -/

/-- Arduino `LOW`. -/
def LOW : Int := 0

/-- Arduino `HIGH`. -/
def HIGH : Int := 1

/-- Arduino pin directions, the second argument of `pinMode`. -/
inductive PinMode where
  | INPUT
  | OUTPUT
  deriving DecidableEq, Repr

/-- One call into the Arduino platform, with its arguments (and, for
`digitalRead`, the level it returned). -/
inductive Event where
  | pinMode (pin : Int) (mode : PinMode)
  | digitalWrite (pin : Int) (val : Int)
  | digitalRead (pin : Int) (val : Int)
  | delay (ms : Int)
  deriving DecidableEq, Repr

/-- The environment of the driver: the calls made so far, oldest first, the
level seen by the `k`-th `digitalRead` of the run (`dq k`), and the number of
`digitalRead` calls made so far. -/
structure World where
  trace : List Event
  dq : Nat → Bool
  reads : Nat

/-- A fresh world in which the successive `digitalRead` calls see `dq`. -/
def World.start (dq : Nat → Bool) : World :=
  { trace := [], dq := dq, reads := 0 }

/-- Arduino `pinMode(pin, mode)`. -/
def pinMode (pin : Int) (mode : PinMode) (w : World) : World :=
  { w with trace := w.trace ++ [Event.pinMode pin mode] }

/-- Arduino `digitalWrite(pin, val)`. -/
def digitalWrite (pin : Int) (val : Int) (w : World) : World :=
  { w with trace := w.trace ++ [Event.digitalWrite pin val] }

/-- Arduino `digitalRead(pin)`: returns `HIGH` or `LOW`, the next level the
environment supplies. -/
def digitalRead (pin : Int) (w : World) : Int × World :=
  let val := if w.dq w.reads then HIGH else LOW
  (val, { w with trace := w.trace ++ [Event.digitalRead pin val], reads := w.reads + 1 })

/-- Arduino `delay(ms)`. -/
def delay (ms : Int) (w : World) : World :=
  { w with trace := w.trace ++ [Event.delay ms] }

/-- Reduction of an integer to the 16-bit two's-complement range of the AVR
`int` and `short`. -/
def wrap16 (x : Int) : Int :=
  (x + 32768) % 65536 - 32768

/-! ## Constants of `ds1620.cpp` -/

def READ_TEMP : Int := 0xAA
def WRITE_TH : Int := 0x01
def WRITE_TL : Int := 0x02
def READ_TH : Int := 0xA1
def READ_TL : Int := 0xA2
def READ_CNTR : Int := 0xA0
def READ_SLOPE : Int := 0xA9
def START_CNV : Int := 0xEE
def STOP_CNV : Int := 0x22
def WRITE_CFG : Int := 0x0C
def READ_CFG : Int := 0xAC
def WRITE_DELAY : Int := 20

end DS1620

/-- The private members `_DQ`, `_CLK`, `_RST` of `class DS1620` that the code
uses (`_T_HIGH`, `_T_LOW`, `_T_COM` are declared and never touched). -/
structure DS1620 where
  _DQ : Int
  _CLK : Int
  _RST : Int
  deriving DecidableEq, Repr

namespace DS1620

/-- The constructor `DS1620::DS1620(DQ, CLK, RST)`. -/
def new (DQ CLK RST : Int) (w : World) : DS1620 × World :=
  let w := pinMode DQ PinMode.OUTPUT w
  let w := pinMode RST PinMode.OUTPUT w
  let w := pinMode CLK PinMode.OUTPUT w
  ({ _DQ := DQ, _CLK := CLK, _RST := RST }, w)

/-- The method `DS1620::rst_start`. -/
def rst_start (self : DS1620) (w : World) : World :=
  let w := digitalWrite self._RST LOW w
  let w := digitalWrite self._CLK HIGH w
  digitalWrite self._RST HIGH w

/-- The method `DS1620::rst_stop`. -/
def rst_stop (self : DS1620) (w : World) : World :=
  digitalWrite self._RST LOW w

/-- The loop `for (n = n0; n < n0 + k; n++)` shared by `send_command` (8 turns)
and by `write_th`/`write_tl` (9 turns): `k` is the number of turns left, `n`
the loop variable. -/
def send_bits (self : DS1620) (value : Int) : Nat → Nat → World → World
  | 0, _, w => w
  | k + 1, n, w =>
    let bit := Int.land (value >>> n) 0x01
    let w := digitalWrite self._DQ bit w
    let w := digitalWrite self._CLK LOW w
    let w := digitalWrite self._CLK HIGH w
    send_bits self value k (n + 1) w

/-- The method `DS1620::send_command`. -/
def send_command (self : DS1620) (command : Int) (w : World) : World :=
  send_bits self command 8 0 w

/-- The loop of `receive_data`: `k` turns left, loop variable `n`, accumulator
`data`. -/
def receive_loop (self : DS1620) : Nat → Nat → Int → World → Int × World
  | 0, _, data, w => (data, w)
  | k + 1, n, data, w =>
    let w := digitalWrite self._CLK LOW w
    let r := digitalRead self._DQ w
    let bit := r.1
    let w := digitalWrite self._CLK HIGH r.2
    receive_loop self k (n + 1) (Int.lor data (bit <<< (n : Int))) w

/-- The method `DS1620::receive_data`. -/
def receive_data (self : DS1620) (w : World) : Int × World :=
  let w := pinMode self._DQ PinMode.INPUT w
  let r := receive_loop self 9 0 0 w
  let w := pinMode self._DQ PinMode.OUTPUT r.2
  (r.1, w)

/-- Lines 76-86 of `read_temp`: from the received word to the signed value
in half degrees, before the final division. -/
def read_temp_signed (tempIn : Int) : Int :=
  let sign := wrap16 (Int.land tempIn 0x0100)
  let sign := wrap16 (sign >>> 8)
  let tempIn := wrap16 (Int.land tempIn 0x00FF)
  if sign = 1 then
    let tempIn := wrap16 (0x0100 - tempIn)
    wrap16 (tempIn - tempIn * 2)
  else
    tempIn

/-- The method `DS1620::read_temp`. -/
def read_temp (self : DS1620) (w : World) : Int × World :=
  let w := rst_start self w
  let w := send_command self READ_TEMP w
  let r := receive_data self w
  let tempIn := wrap16 r.1
  let w := rst_stop self r.2
  let tempIn := read_temp_signed tempIn
  let t := wrap16 (Int.tdiv tempIn 2)
  (t, w)

/-- The method `DS1620::write_th`. -/
def write_th (self : DS1620) (high_temp : Int) (w : World) : World :=
  let high_temp := wrap16 (high_temp * 2)
  let w := rst_start self w
  let w := send_command self WRITE_TH w
  let w := send_bits self high_temp 9 0 w
  let w := delay WRITE_DELAY w
  rst_stop self w

/-- The method `DS1620::write_tl`. -/
def write_tl (self : DS1620) (temp : Int) (w : World) : World :=
  let temp := wrap16 (temp * 2)
  let w := rst_start self w
  let w := send_command self WRITE_TL w
  let w := send_bits self temp 9 0 w
  let w := delay WRITE_DELAY w
  rst_stop self w

/-- The method `DS1620::read_th`. -/
def read_th (self : DS1620) (w : World) : Int × World :=
  let w := rst_start self w
  let w := send_command self READ_TH w
  let r := receive_data self w
  let temp := Int.tdiv r.1 2
  let w := rst_stop self r.2
  (temp, w)

/-- The method `DS1620::read_tl`. -/
def read_tl (self : DS1620) (w : World) : Int × World :=
  let w := rst_start self w
  let w := send_command self READ_TL w
  let r := receive_data self w
  let temp := Int.tdiv r.1 2
  let w := rst_stop self r.2
  (temp, w)

/-- The method `DS1620::read_counter`. -/
def read_counter (self : DS1620) (w : World) : Int × World :=
  let w := rst_start self w
  let w := send_command self READ_CNTR w
  let r := receive_data self w
  let w := rst_stop self r.2
  (r.1, w)

/-- The method `DS1620::read_slope`. -/
def read_slope (self : DS1620) (w : World) : Int × World :=
  let w := rst_start self w
  let w := send_command self READ_SLOPE w
  let r := receive_data self w
  let w := rst_stop self r.2
  (r.1, w)

/-- The method `DS1620::start_conv`. -/
def start_conv (self : DS1620) (w : World) : World :=
  let w := rst_start self w
  let w := send_command self START_CNV w
  rst_stop self w

/-- The method `DS1620::stop_conv`. -/
def stop_conv (self : DS1620) (w : World) : World :=
  let w := rst_start self w
  let w := send_command self STOP_CNV w
  rst_stop self w

/-- The method `DS1620::read_config`. -/
def read_config (self : DS1620) (w : World) : Int × World :=
  let w := rst_start self w
  let w := send_command self READ_CFG w
  let r := receive_data self w
  let w := rst_stop self r.2
  (r.1, w)

/-- The write session of `write_config` (lines 194-198), taken when
`config_register > 0`. -/
def write_config_session (self : DS1620) (config_register : Int) (w : World) : World :=
  let w := rst_start self w
  let w := send_command self WRITE_CFG w
  let w := send_command self config_register w
  let w := delay WRITE_DELAY w
  rst_stop self w

/-- The method `DS1620::write_config`. -/
def write_config (self : DS1620) (config_register : Int) (w : World) : Int × World :=
  if config_register > 0 then
    let w := write_config_session self config_register w
    let r := read_config self w
    if r.1 = config_register then (0, r.2) else (1, r.2)
  else
    (2, w)

/-! ## Vocabulary of the specification -/

/-- The level, as `0` or `1`, that the `i`-th coming `digitalRead` will see. -/
def sample (w : World) (i : Nat) : Int :=
  if w.dq (w.reads + i) then 1 else 0

/-- The 9-bit raw value delivered by the next nine sampled DATA levels, least
significant bit first. -/
def raw9 (w : World) : Int :=
  ((List.range 9).map (fun i => sample w i * 2 ^ i)).sum

/-- The stream of DATA levels that spells the binary digits of `v`, least
significant first. -/
def bitsOf (v : Nat) : Nat → Bool :=
  fun i => v.testBit i

/-- The events of one turn of a transmission loop that presents `bit`. -/
def pulse (self : DS1620) (bit : Int) : List Event :=
  [Event.digitalWrite self._DQ bit, Event.digitalWrite self._CLK LOW,
    Event.digitalWrite self._CLK HIGH]

/-- The events of one turn of the reception loop that samples `bit`. -/
def samplePulse (self : DS1620) (bit : Int) : List Event :=
  [Event.digitalWrite self._CLK LOW, Event.digitalRead self._DQ bit,
    Event.digitalWrite self._CLK HIGH]

/-- The events of `rst_start`. -/
def startEvents (self : DS1620) : List Event :=
  [Event.digitalWrite self._RST LOW, Event.digitalWrite self._CLK HIGH,
    Event.digitalWrite self._RST HIGH]

/-- The level clocked out at the head of a trace, if the trace starts with a
pulse: a write to `_DQ` followed at once by CLOCK low, CLOCK high. -/
def pulseAt (self : DS1620) : List Event → Option Int
  | Event.digitalWrite p v :: Event.digitalWrite q l :: Event.digitalWrite r h :: _ =>
    if p = self._DQ ∧ q = self._CLK ∧ l = LOW ∧ r = self._CLK ∧ h = HIGH then some v else none
  | _ => none

/-- The DATA levels a trace clocks out, in order: the level of every pulse
found in it. -/
def clockedOut (self : DS1620) (es : List Event) : List Int :=
  es.tails.filterMap (pulseAt self)

/-- The calls a run added to the trace of the world `w` it started from. -/
def newEvents (w : World) (after : World) : List Event :=
  after.trace.drop w.trace.length

/-- Level of a sample as the `int` that `digitalRead` returns. -/
def level (b : Bool) : Int :=
  if b then 1 else 0

/-- The events of `receive_data` run in the world `w`. -/
def receiveEvents (self : DS1620) (w : World) : List Event :=
  [Event.pinMode self._DQ PinMode.INPUT]
    ++ (List.range 9).flatMap (fun i => samplePulse self (sample w i))
    ++ [Event.pinMode self._DQ PinMode.OUTPUT]

/-- Whether a call is a `digitalRead`. -/
def Event.isRead : Event → Bool
  | Event.digitalRead _ _ => true
  | _ => false

/-- Whether a call is a `pinMode`. -/
def Event.isPinMode : Event → Bool
  | Event.pinMode _ _ => true
  | _ => false

/-- The events of a threshold write with command `cmd` and scaled value
`scaled`. -/
def thresholdEvents (self : DS1620) (cmd scaled : Int) : List Event :=
  startEvents self
    ++ (List.range 8).flatMap (fun i => pulse self (Int.land (cmd >>> i) 0x01))
    ++ (List.range 9).flatMap (fun i => pulse self (Int.land (scaled >>> i) 0x01))
    ++ [Event.delay WRITE_DELAY, Event.digitalWrite self._RST LOW]

/-- The levels a threshold write clocks out on DATA after the eight bits of
its command byte, recovered from the calls the write added to the trace. -/
def payloadOf (self : DS1620) (w : World) (after : World) : List Int :=
  (clockedOut self (newEvents w after)).drop 8

/-! ## Public operations and observers of the lines -/

/-- The public operations of `class DS1620`, with their arguments. -/
inductive Op where
  | read_temp
  | write_th (t : Int)
  | write_tl (t : Int)
  | read_th
  | read_tl
  | read_counter
  | read_slope
  | start_conv
  | stop_conv
  | write_config (v : Int)
  | read_config
  deriving DecidableEq, Repr

/-- The world after a call of a public operation. -/
def Op.exec (self : DS1620) : Op → World → World
  | Op.read_temp, w => (self.read_temp w).2
  | Op.write_th t, w => self.write_th t w
  | Op.write_tl t, w => self.write_tl t w
  | Op.read_th, w => (self.read_th w).2
  | Op.read_tl, w => (self.read_tl w).2
  | Op.read_counter, w => (self.read_counter w).2
  | Op.read_slope, w => (self.read_slope w).2
  | Op.start_conv, w => self.start_conv w
  | Op.stop_conv, w => self.stop_conv w
  | Op.write_config v, w => (self.write_config v w).2
  | Op.read_config, w => (self.read_config w).2

/-- A call of a public operation on the object and its environment.  No
method of the source assigns `_DQ`, `_CLK` or `_RST`, so the object is handed
on as it is. -/
def Op.run (op : Op) (s : DS1620 × World) : DS1620 × World :=
  (s.1, op.exec s.1 s.2)

/-- A sequence of calls, in order. -/
def runAll (ops : List Op) (s : DS1620 × World) : DS1620 × World :=
  ops.foldl (fun s op => op.run s) s

/-- Whether a call reaches the lines: every call but `write_config` of a
value that is not positive. -/
def Op.performsIO : Op → Bool
  | Op.write_config v => decide (v > 0)
  | _ => true

/-- Whether a call writes to the chip's non-volatile storage. -/
def Op.isWrite : Op → Bool
  | Op.write_th _ => true
  | Op.write_tl _ => true
  | Op.write_config v => decide (v > 0)
  | _ => false

/-- The command set of the chip: the opcode of each operation. -/
def Op.opcode : Op → Int
  | Op.read_temp => 0xAA
  | Op.write_th _ => 0x01
  | Op.write_tl _ => 0x02
  | Op.read_th => 0xA1
  | Op.read_tl => 0xA2
  | Op.read_counter => 0xA0
  | Op.read_slope => 0xA9
  | Op.start_conv => 0xEE
  | Op.stop_conv => 0x22
  | Op.write_config _ => 0x0C
  | Op.read_config => 0xAC

/-- The events of `send_command cmd`. -/
def commandEvents (self : DS1620) (cmd : Int) : List Event :=
  (List.range 8).flatMap (fun i => pulse self (Int.land (cmd >>> i) 0x01))

/-- The events of a read operation with command `cmd` run in the world `w`. -/
def readEvents (self : DS1620) (cmd : Int) (w : World) : List Event :=
  startEvents self ++ commandEvents self cmd ++ receiveEvents self w
    ++ [Event.digitalWrite self._RST LOW]

/-- The events of `start_conv` and `stop_conv`, with command `cmd`. -/
def plainEvents (self : DS1620) (cmd : Int) : List Event :=
  startEvents self ++ commandEvents self cmd ++ [Event.digitalWrite self._RST LOW]

/-- The events of the write session of `write_config v`. -/
def configEvents (self : DS1620) (v : Int) : List Event :=
  startEvents self ++ commandEvents self WRITE_CFG ++ commandEvents self v
    ++ [Event.delay WRITE_DELAY, Event.digitalWrite self._RST LOW]

/-- The events a public operation adds to the trace of the world `w`. -/
def Op.events (self : DS1620) (w : World) : Op → List Event
  | Op.read_temp => readEvents self READ_TEMP w
  | Op.write_th t => thresholdEvents self WRITE_TH (wrap16 (t * 2))
  | Op.write_tl t => thresholdEvents self WRITE_TL (wrap16 (t * 2))
  | Op.read_th => readEvents self READ_TH w
  | Op.read_tl => readEvents self READ_TL w
  | Op.read_counter => readEvents self READ_CNTR w
  | Op.read_slope => readEvents self READ_SLOPE w
  | Op.start_conv => plainEvents self START_CNV
  | Op.stop_conv => plainEvents self STOP_CNV
  | Op.write_config v =>
    if v > 0 then configEvents self v ++ readEvents self READ_CFG w else []
  | Op.read_config => readEvents self READ_CFG w

/-- The number of samples a public operation consumes. -/
def Op.samples : Op → Nat
  | Op.read_temp => 9
  | Op.read_th => 9
  | Op.read_tl => 9
  | Op.read_counter => 9
  | Op.read_slope => 9
  | Op.read_config => 9
  | Op.write_config v => if v > 0 then 9 else 0
  | _ => 0

/-- The three lines are wired to three different pins. -/
def Wired (self : DS1620) : Prop :=
  self._DQ ≠ self._CLK ∧ self._DQ ≠ self._RST ∧ self._CLK ≠ self._RST

instance (self : DS1620) : Decidable (Wired self) := by
  unfold Wired; infer_instance

/-- What a trace does to the RESET line: whether RESET is left high, how many
times it was taken from low to high (a session begun) and from high to low (a
session ended), and how many DATA writes, DATA samples and CLOCK falling edges
happened while RESET was low. -/
structure Sessions where
  high : Bool
  begun : Nat
  ended : Nat
  outside : Nat
  deriving DecidableEq, Repr

/-- The effect of one call on the summary of the RESET line. -/
def Sessions.step (self : DS1620) (s : Sessions) : Event → Sessions
  | Event.digitalWrite p v =>
    if p = self._RST then
      if v = LOW then
        if s.high then { s with high := false, ended := s.ended + 1 } else s
      else
        if s.high then s else { s with high := true, begun := s.begun + 1 }
    else if s.high then s
    else if p = self._DQ ∨ (p = self._CLK ∧ v = LOW) then { s with outside := s.outside + 1 }
    else s
  | Event.digitalRead _ _ =>
    if s.high then s else { s with outside := s.outside + 1 }
  | _ => s

/-- The summary of a trace that starts with RESET low. -/
def sessionsOf (self : DS1620) (es : List Event) : Sessions :=
  es.foldl (Sessions.step self) ⟨false, 0, 0, 0⟩

/-- Whether a trace starts with the sequence RESET low, CLOCK high, RESET
high. -/
def startAt (self : DS1620) : List Event → Bool
  | Event.digitalWrite p a :: Event.digitalWrite q b :: Event.digitalWrite r c :: _ =>
    decide (p = self._RST ∧ a = LOW ∧ q = self._CLK ∧ b = HIGH ∧ r = self._RST ∧ c = HIGH)
  | _ => false

/-- The number of places of a trace where the sequence RESET low, CLOCK high,
RESET high occurs. -/
def startCount (self : DS1620) (es : List Event) : Nat :=
  (es.tails.filter (startAt self)).length

/-- The value of a list of levels read least significant bit first. -/
def decodeLSB : List Int → Int
  | [] => 0
  | b :: bs => b + 2 * decodeLSB bs

/-- The byte spelled by the first eight levels a trace clocks out. -/
def firstByte (self : DS1620) (es : List Event) : Int :=
  decodeLSB ((clockedOut self es).take 8)

/-- The durations of the delays of a trace, in order. -/
def delaysOf : List Event → List Int
  | [] => []
  | Event.delay ms :: es => ms :: delaysOf es
  | _ :: es => delaysOf es

/-- The last level written to `pin`, if any, given the level `init` before
the trace. -/
def lastWrite (pin : Int) (init : Option Int) (es : List Event) : Option Int :=
  es.foldl (fun acc e =>
    match e with
    | Event.digitalWrite p v => if p = pin then some v else acc
    | _ => acc) init

/-- The direction last given to `pin`, if any, given the direction `init`
before the trace. -/
def modeOf (pin : Int) (init : Option PinMode) (es : List Event) : Option PinMode :=
  es.foldl (fun acc e =>
    match e with
    | Event.pinMode p m => if p = pin then some m else acc
    | _ => acc) init

/-- The number of sessions of a public operation: one, except for
`write_config`, which runs its write session and then the session of
`read_config`, or nothing at all when the value is not positive. -/
def Op.sessions : Op → Nat
  | Op.write_config v => if v > 0 then 2 else 0
  | _ => 1

/-! ## Bit-level arithmetic -/

theorem nat_zero_ldiff (n : Nat) : Nat.ldiff 0 n = 0 := by
  unfold Nat.ldiff; rw [Nat.bitwise_zero_left]; rfl

/-- Masking with `0x01` keeps the parity, also of a negative `int`. -/
theorem land_one_eq (x : Int) : Int.land x 1 = x % 2 := by
  cases x with
  | ofNat m =>
    show ((m &&& 1 : Nat) : Int) = _
    rw [Nat.and_one_is_mod]; simp
  | negSucc m =>
    show ((Nat.ldiff 1 m : Nat) : Int) = _
    have h : Nat.ldiff 1 m = (m + 1) % 2 := by
      induction m using Nat.binaryRec with
      | z => unfold Nat.ldiff; rw [Nat.bitwise_zero_right]; rfl
      | f b n _ =>
        have e : (1 : Nat) = Nat.bit true 0 := rfl
        rw [e, Nat.ldiff_bit, nat_zero_ldiff]
        cases b <;> simp [Nat.bit] <;> omega
    rw [h, Int.negSucc_eq]; omega

/-- The bit `(value >> n) & 0x01` of the source, arithmetically. -/
theorem bit_eq (value : Int) (n : Nat) :
    Int.land (value >>> n) 0x01 = value / 2 ^ n % 2 := by
  rw [land_one_eq, Int.shiftRight_eq_div_pow]; norm_cast

/-! ## Effects of the primitives on the world -/

theorem send_bits_eq (self : DS1620) (value : Int) (k : Nat) :
    ∀ (n : Nat) (w : World), send_bits self value k n w =
      { w with trace := w.trace ++
          (List.range' n k).flatMap (fun i => pulse self (Int.land (value >>> i) 0x01)) } := by
  induction k with
  | zero => intro n w; simp [send_bits]
  | succ k ih =>
    intro n w
    simp [send_bits, ih, digitalWrite, List.range'_succ, pulse]

theorem send_command_eq (self : DS1620) (command : Int) (w : World) :
    send_command self command w =
      { w with trace := w.trace ++
          (List.range 8).flatMap (fun i => pulse self (Int.land (command >>> i) 0x01)) } := by
  rw [send_command, send_bits_eq, List.range_eq_range']

theorem receive_loop_world (self : DS1620) (k : Nat) :
    ∀ (n : Nat) (data : Int) (w : World), (receive_loop self k n data w).2 =
      { trace := w.trace ++ (List.range k).flatMap (fun i => samplePulse self (sample w i)),
        dq := w.dq, reads := w.reads + k } := by
  induction k with
  | zero => intro n data w; simp [receive_loop]
  | succ k ih =>
    intro n data w
    rw [receive_loop, ih, List.range_succ_eq_map]
    simp [digitalWrite, digitalRead, samplePulse, sample, List.flatMap_map, HIGH, LOW,
      Nat.add_assoc, Nat.add_comm 1]

/-- The nine `data | bit << n` steps add up the sampled bits by weight. -/
theorem lor_shift_nine (b0 b1 b2 b3 b4 b5 b6 b7 b8 : Bool) :
    Int.lor (Int.lor (Int.lor (Int.lor (Int.lor (Int.lor (Int.lor (Int.lor (Int.lor 0
      (level b0 <<< (0 : Int))) (level b1 <<< (1 : Int))) (level b2 <<< (2 : Int)))
      (level b3 <<< (3 : Int))) (level b4 <<< (4 : Int))) (level b5 <<< (5 : Int)))
      (level b6 <<< (6 : Int))) (level b7 <<< (7 : Int))) (level b8 <<< (8 : Int)) =
    level b0 * 2 ^ 0 + (level b1 * 2 ^ 1 + (level b2 * 2 ^ 2 + (level b3 * 2 ^ 3 +
      (level b4 * 2 ^ 4 + (level b5 * 2 ^ 5 + (level b6 * 2 ^ 6 + (level b7 * 2 ^ 7 +
      (level b8 * 2 ^ 8 + 0)))))))) := by
  revert b0 b1 b2 b3 b4 b5 b6 b7 b8
  decide

/-- The accumulator of the nine turns of the reception loop. -/
theorem receive_loop_value (self : DS1620) (w : World) :
    (receive_loop self 9 0 0 w).1 = raw9 w := by
  simp only [receive_loop, digitalRead, digitalWrite, raw9, sample, List.range, List.range.loop,
    List.map, List.sum_cons, List.sum_nil, Nat.add_assoc, HIGH, LOW, Nat.reduceAdd,
    Nat.add_zero, Nat.zero_add]
  exact lor_shift_nine (w.dq w.reads) (w.dq (w.reads + 1)) (w.dq (w.reads + 2))
    (w.dq (w.reads + 3)) (w.dq (w.reads + 4)) (w.dq (w.reads + 5)) (w.dq (w.reads + 6))
    (w.dq (w.reads + 7)) (w.dq (w.reads + 8))

theorem sample_bounds (w : World) (i : Nat) : 0 ≤ sample w i ∧ sample w i ≤ 1 := by
  unfold sample; split <;> omega

theorem raw9_expand (w : World) :
    raw9 w = sample w 0 + 2 * sample w 1 + 4 * sample w 2 + 8 * sample w 3 + 16 * sample w 4
      + 32 * sample w 5 + 64 * sample w 6 + 128 * sample w 7 + 256 * sample w 8 := by
  simp only [raw9, List.range, List.range.loop, List.map, List.sum_cons, List.sum_nil]
  ring

/-- The nine sampled levels always spell a value of nine bits. -/
theorem raw9_bounds (w : World) : 0 ≤ raw9 w ∧ raw9 w ≤ 511 := by
  rw [raw9_expand]
  have h0 := sample_bounds w 0
  have h1 := sample_bounds w 1
  have h2 := sample_bounds w 2
  have h3 := sample_bounds w 3
  have h4 := sample_bounds w 4
  have h5 := sample_bounds w 5
  have h6 := sample_bounds w 6
  have h7 := sample_bounds w 7
  have h8 := sample_bounds w 8
  omega

set_option maxRecDepth 100000 in
/-- Every nine-bit value is delivered by some stream of samples. -/
theorem raw9_bitsOf : ∀ r : Fin 512, raw9 (World.start (bitsOf r.val)) = (r.val : Int) := by
  decide

/-- The coming samples depend only on the input stream and the read count. -/
theorem sample_congr {w1 w2 : World} (hdq : w1.dq = w2.dq) (hreads : w1.reads = w2.reads) :
    sample w1 = sample w2 := by
  funext i; simp [sample, hdq, hreads]

theorem raw9_congr {w1 w2 : World} (hdq : w1.dq = w2.dq) (hreads : w1.reads = w2.reads) :
    raw9 w1 = raw9 w2 := by
  simp [raw9, sample_congr hdq hreads]

theorem receive_data_eq (self : DS1620) (w : World) :
    receive_data self w =
      (raw9 w, { trace := w.trace ++ receiveEvents self w, dq := w.dq, reads := w.reads + 9 }) := by
  have hs : sample (pinMode self._DQ PinMode.INPUT w) = sample w := sample_congr rfl rfl
  have hr : raw9 (pinMode self._DQ PinMode.INPUT w) = raw9 w := raw9_congr rfl rfl
  simp only [receive_data, receive_loop_value, receive_loop_world, hs, hr]
  simp only [pinMode, receiveEvents, List.append_assoc]

theorem rst_start_eq (self : DS1620) (w : World) :
    rst_start self w = { w with trace := w.trace ++ startEvents self } := by
  simp [rst_start, digitalWrite, startEvents]

theorem rst_stop_eq (self : DS1620) (w : World) :
    rst_stop self w = { w with trace := w.trace ++ [Event.digitalWrite self._RST LOW] } := by
  simp [rst_stop, digitalWrite]

/-- The world in which a read operation reaches `receive_data`: the session is
open and the command `cmd` has been sent. -/
theorem raw9_after_command (self : DS1620) (cmd : Int) (w : World) :
    raw9 (send_command self cmd (rst_start self w)) = raw9 w := by
  apply raw9_congr <;> simp [send_command_eq, rst_start_eq]

theorem read_temp_value (self : DS1620) (w : World) :
    (read_temp self w).1 = wrap16 (Int.tdiv (read_temp_signed (wrap16 (raw9 w))) 2) := by
  simp [read_temp, receive_data_eq, raw9_after_command]

theorem read_th_value (self : DS1620) (w : World) :
    (read_th self w).1 = Int.tdiv (raw9 w) 2 := by
  simp [read_th, receive_data_eq, raw9_after_command]

theorem read_tl_value (self : DS1620) (w : World) :
    (read_tl self w).1 = Int.tdiv (raw9 w) 2 := by
  simp [read_tl, receive_data_eq, raw9_after_command]

theorem read_config_value (self : DS1620) (w : World) :
    (read_config self w).1 = raw9 w := by
  simp [read_config, receive_data_eq, raw9_after_command]

theorem wrap16_of_range (x : Int) (hlo : -32768 ≤ x) (hhi : x ≤ 32767) : wrap16 x = x := by
  unfold wrap16; omega

set_option maxRecDepth 100000 in
theorem read_temp_signed_table :
    ∀ v : Fin 512, read_temp_signed (v.val : Int) =
      if v.val < 256 then (v.val : Int) else (v.val : Int) - 512 := by
  decide

/-- What lines 76-86 of `read_temp` compute from a nine-bit word. -/
theorem read_temp_signed_eq (v : Int) (h0 : 0 ≤ v) (h511 : v ≤ 511) :
    read_temp_signed v = if v < 256 then v else v - 512 := by
  have hlt : v.toNat < 512 := by omega
  have h := read_temp_signed_table ⟨v.toNat, hlt⟩
  simp only [Int.toNat_of_nonneg h0] at h
  rw [h]
  by_cases hv : v < 256
  · have : v.toNat < 256 := by omega
    simp [hv, this]
  · have : ¬ v.toNat < 256 := by omega
    simp [hv, this]

/-- The value `read_temp` returns, as a function of the nine-bit word. -/
theorem read_temp_value_eq (self : DS1620) (w : World) :
    (read_temp self w).1 =
      Int.tdiv (if raw9 w < 256 then raw9 w else raw9 w - 512) 2 := by
  have hb := raw9_bounds w
  rw [read_temp_value, wrap16_of_range (raw9 w) (by omega) (by omega),
    read_temp_signed_eq (raw9 w) hb.1 hb.2]
  apply wrap16_of_range
  · split
    · rw [Int.tdiv_eq_ediv (by omega) (by omega)]; omega
    · have : 0 ≤ (-(raw9 w - 512)).tdiv 2 := Int.tdiv_nonneg (by omega) (by omega)
      rw [show raw9 w - 512 = -(-(raw9 w - 512)) by ring, Int.neg_tdiv]
      have : (-(raw9 w - 512)).tdiv 2 = (-(raw9 w - 512)) / 2 :=
        Int.tdiv_eq_ediv (by omega) (by omega)
      omega
  · split
    · rw [Int.tdiv_eq_ediv (by omega) (by omega)]; omega
    · rw [show raw9 w - 512 = -(-(raw9 w - 512)) by ring, Int.neg_tdiv]
      have : 0 ≤ (-(raw9 w - 512)).tdiv 2 := Int.tdiv_nonneg (by omega) (by omega)
      omega

/-! ## Temperature decoding -/

/-- C1: when the nine sampled DATA bits deliver a raw value `v` with
`0 ≤ v ≤ 0xFF` (bit 8 clear), `read_temp` returns `v / 2` truncated toward
zero, which for these values is also the floor. -/
theorem read_temp_positive (self : DS1620) (w : World) (v : Int)
    (hraw : raw9 w = v) (h0 : 0 ≤ v) (hFF : v ≤ 0xFF) :
    (read_temp self w).1 = Int.tdiv v 2 ∧ Int.tdiv v 2 = Int.fdiv v 2 := by
  have hlt : raw9 w < 256 := by omega
  refine ⟨?_, ?_⟩
  · rw [read_temp_value_eq, if_pos hlt, hraw]
  · rw [Int.tdiv_eq_ediv h0 (by omega), Int.fdiv_eq_ediv v (by omega)]

/-- Raw 5 gives 2 and raw 20 (`0b0_00010100`) gives 10. -/
theorem read_temp_positive_witness :
    (read_temp ⟨1, 2, 3⟩ (World.start (bitsOf 5))).1 = 2
      ∧ (read_temp ⟨1, 2, 3⟩ (World.start (bitsOf 20))).1 = 10 :=
  ⟨(read_temp_positive ⟨1, 2, 3⟩ (World.start (bitsOf 5)) 5
      (by decide) (by decide) (by decide)).1,
    (read_temp_positive ⟨1, 2, 3⟩ (World.start (bitsOf 20)) 20
      (by decide) (by decide) (by decide)).1⟩

/-- C2: when the nine sampled DATA bits deliver a raw value with bit 8 set
and low eight bits `m`, `read_temp` returns `-(0x100 - m) / 2` with C division
(truncation toward zero). -/
theorem read_temp_negative (self : DS1620) (w : World) (m : Int)
    (hraw : raw9 w = 0x100 + m) (h0 : 0 ≤ m) (hFF : m ≤ 0xFF) :
    (read_temp self w).1 = Int.tdiv (-(0x100 - m)) 2 := by
  have hge : ¬ raw9 w < 256 := by omega
  rw [read_temp_value_eq, if_neg hge, hraw]
  congr 1
  ring

/-- Magnitude 0 gives -128, raw `0b1_00010100` (magnitude 20) gives -118, and
magnitude 255 gives 0 (the odd `-1` rounds toward zero). -/
theorem read_temp_negative_witness :
    (read_temp ⟨1, 2, 3⟩ (World.start (bitsOf 0x100))).1 = -128
      ∧ (read_temp ⟨1, 2, 3⟩ (World.start (bitsOf 0x114))).1 = -118
      ∧ (read_temp ⟨1, 2, 3⟩ (World.start (bitsOf 0x1FF))).1 = 0 :=
  ⟨read_temp_negative ⟨1, 2, 3⟩ (World.start (bitsOf 0x100)) 0
      (by decide) (by decide) (by decide),
    read_temp_negative ⟨1, 2, 3⟩ (World.start (bitsOf 0x114)) 20
      (by decide) (by decide) (by decide),
    read_temp_negative ⟨1, 2, 3⟩ (World.start (bitsOf 0x1FF)) 255
      (by decide) (by decide) (by decide)⟩

/-- For a nine-bit word with bit 8 set, the steps of lines 76-86 are the
subtraction from 256 followed by the negation, and the outcome is the word
minus 512. -/
theorem read_temp_signed_high (v : Int) (h256 : 0x100 ≤ v) (h511 : v ≤ 0x1FF) :
    read_temp_signed v = -(0x100 - Int.land v 0xFF) ∧ read_temp_signed v = v - 512 := by
  have hv : ¬ v < 256 := by omega
  have hland : Int.land v 0xFF = v - 256 := by
    have e : v = ((v.toNat : Nat) : Int) := (Int.toNat_of_nonneg (by omega)).symm
    have hm : (v.toNat &&& 255 : Nat) = v.toNat % 256 :=
      Nat.and_pow_two_sub_one_eq_mod v.toNat 8
    have hl : Int.land ((v.toNat : Nat) : Int) 0xFF = ((v.toNat &&& 255 : Nat) : Int) := rfl
    rw [e, hl, hm]
    omega
  rw [read_temp_signed_eq v (by omega) h511, if_neg hv, hland]
  omega

/-- C3, as stated, fails: no nine-bit word with bit 8 set has a value before
halving that differs from its nine-bit two's-complement reading `v - 512`. -/
theorem read_temp_signed_is_twos_complement :
    ¬ ∃ v : Int, 0x100 ≤ v ∧ v ≤ 0x1FF ∧
        (read_temp_signed v ≠ v - 512 ∨ -(0x100 - Int.land v 0xFF) ≠ v - 512) := by
  rintro ⟨v, h256, h511, hne⟩
  have h := read_temp_signed_high v h256 h511
  rcases hne with hne | hne
  · exact hne h.2
  · exact hne (h.1 ▸ h.2)

/-- C3, amended: for every nine-bit word `v` with bit 8 set, the value
`read_temp` computes before halving is `-(0x100 - (v & 0xFF))`, and it equals
the nine-bit two's-complement reading `v - 512`. -/
theorem read_temp_signed_twos_complement (v : Int) (h256 : 0x100 ≤ v) (h511 : v ≤ 0x1FF) :
    read_temp_signed v = -(0x100 - Int.land v 0xFF)
      ∧ -(0x100 - Int.land v 0xFF) = v - 512 := by
  have h := read_temp_signed_high v h256 h511
  exact ⟨h.1, h.1 ▸ h.2⟩

/-- The words `0x100` and `0x1FF` decode to -256 and -1 half degrees. -/
theorem read_temp_signed_twos_complement_witness :
    (read_temp_signed 0x100 = -(0x100 - Int.land 0x100 0xFF)
        ∧ -(0x100 - Int.land 0x100 0xFF) = 0x100 - 512)
      ∧ read_temp_signed 0x1FF = -(0x100 - Int.land 0x1FF 0xFF) :=
  ⟨read_temp_signed_twos_complement 0x100 (by decide) (by decide),
    (read_temp_signed_twos_complement 0x1FF (by decide) (by decide)).1⟩

/-! ## Configuration register -/

/-- C5: for every configuration value `v ≤ 0`, `write_config` returns 2 and
leaves the world as it was: no pin write, pin read, direction change or delay
is added to the trace, and no sample is consumed. -/
theorem write_config_rejected (self : DS1620) (v : Int) (w : World) (hv : v ≤ 0) :
    write_config self v w = (2, w)
      ∧ newEvents w (write_config self v w).2 = [] := by
  have h : ¬ v > 0 := by omega
  simp [write_config, h, newEvents]

/-- Rejection of 0 and of -7 on a line that has already seen traffic. -/
theorem write_config_rejected_witness :
    (write_config ⟨1, 2, 3⟩ 0 (rst_start ⟨1, 2, 3⟩ (World.start (bitsOf 5)))).1 = 2
      ∧ (write_config ⟨1, 2, 3⟩ (-7) (World.start (bitsOf 5))).2.trace = [] :=
  ⟨congrArg Prod.fst
      (write_config_rejected ⟨1, 2, 3⟩ 0 (rst_start ⟨1, 2, 3⟩ (World.start (bitsOf 5)))
        (by decide)).1,
    congrArg (fun r => r.2.trace)
      (write_config_rejected ⟨1, 2, 3⟩ (-7) (World.start (bitsOf 5)) (by decide)).1⟩

/-- The write session of `write_config` reads nothing. -/
theorem raw9_after_write_session (self : DS1620) (v : Int) (w : World) :
    raw9 (write_config_session self v w) = raw9 w := by
  apply raw9_congr <;>
    simp [write_config_session, send_command_eq, rst_start_eq, rst_stop_eq, delay]

/-- C6: for `v > 0`, `write_config` returns 0 when its internal `read_config`
call (run in the world left by the write session) returns `v`, and 1
otherwise; that read-back value is the word spelled by the nine sampled DATA
levels.  For every `v` the result is one of 0, 1, 2. -/
theorem write_config_status (self : DS1620) (v : Int) (w : World) :
    (0 < v →
        (read_config self (write_config_session self v w)).1 = raw9 w
          ∧ ((read_config self (write_config_session self v w)).1 = v →
              (write_config self v w).1 = 0)
          ∧ ((read_config self (write_config_session self v w)).1 ≠ v →
              (write_config self v w).1 = 1))
      ∧ ((write_config self v w).1 = 0 ∨ (write_config self v w).1 = 1
          ∨ (write_config self v w).1 = 2) := by
  refine ⟨fun hv => ⟨?_, ?_, ?_⟩, ?_⟩
  · rw [read_config_value, raw9_after_write_session]
  · intro h
    have hv2 : v > 0 := hv
    simp [write_config, hv2, h]
  · intro h
    have hv2 : v > 0 := hv
    simp [write_config, hv2, h]
  · unfold write_config
    split
    · dsimp only
      split
      · exact Or.inl rfl
      · exact Or.inr (Or.inl rfl)
    · exact Or.inr (Or.inr rfl)

/-- Writing 10: a read-back of 10 gives status 0, a read-back of 11 gives
status 1. -/
theorem write_config_status_witness :
    (write_config ⟨1, 2, 3⟩ 10 (World.start (bitsOf 10))).1 = 0
      ∧ (write_config ⟨1, 2, 3⟩ 10 (World.start (bitsOf 11))).1 = 1 :=
  ⟨((write_config_status ⟨1, 2, 3⟩ 10 (World.start (bitsOf 10))).1 (by decide)).2.1
      (by decide),
    ((write_config_status ⟨1, 2, 3⟩ 10 (World.start (bitsOf 11))).1 (by decide)).2.2
      (by decide)⟩

/-- C7, as stated, fails: when the ninth sampled level is high and the other
eight are low, `read_config` returns 256, which is not an 8-bit value. -/
theorem read_config_exceeds_byte :
    (read_config ⟨1, 2, 3⟩ (World.start (bitsOf 0x100))).1 = 0x100
      ∧ ¬ (read_config ⟨1, 2, 3⟩ (World.start (bitsOf 0x100))).1 ≤ 255 := by
  decide

/-- C7, amended: `read_config` returns the nine-bit word of `receive_data`
unchanged, a value in `0..511`; it lies in `0..255` exactly when the ninth
sampled level is low. -/
theorem read_config_nine_bits (self : DS1620) (w : World) :
    (read_config self w).1 = raw9 w
      ∧ 0 ≤ (read_config self w).1 ∧ (read_config self w).1 ≤ 511
      ∧ ((read_config self w).1 ≤ 255 ↔ sample w 8 = 0) := by
  have hb := raw9_bounds w
  rw [read_config_value]
  refine ⟨rfl, hb.1, hb.2, ?_⟩
  rw [raw9_expand]
  have h0 := sample_bounds w 0
  have h1 := sample_bounds w 1
  have h2 := sample_bounds w 2
  have h3 := sample_bounds w 3
  have h4 := sample_bounds w 4
  have h5 := sample_bounds w 5
  have h6 := sample_bounds w 6
  have h7 := sample_bounds w 7
  have h8 := sample_bounds w 8
  constructor <;> intro h <;> omega

/-! ## Threshold reads -/

/-- C8: when the nine sampled DATA bits deliver the raw value `r`, `read_th`
and `read_tl` each return `r / 2` with no sign handling; `r` lies in `0..511`
and the result in `0..255`, never negative, also when bit 8 of `r` is set. -/
theorem read_threshold_plain (self : DS1620) (w : World) (r : Int) (hraw : raw9 w = r) :
    (read_th self w).1 = Int.tdiv r 2 ∧ (read_tl self w).1 = Int.tdiv r 2
      ∧ Int.tdiv r 2 = r / 2
      ∧ 0 ≤ r ∧ r ≤ 511
      ∧ 0 ≤ (read_th self w).1 ∧ (read_th self w).1 ≤ 255
      ∧ 0 ≤ (read_tl self w).1 ∧ (read_tl self w).1 ≤ 255 := by
  have hb := raw9_bounds w
  rw [hraw] at hb
  have hd : Int.tdiv r 2 = r / 2 := Int.tdiv_eq_ediv hb.1 (by omega)
  rw [read_th_value, read_tl_value, hraw, hd]
  refine ⟨rfl, rfl, rfl, hb.1, hb.2, ?_, ?_, ?_, ?_⟩ <;> omega

/-- The words `0x1FF` (bit 8 set) and `0x32` read back as 255 and 25. -/
theorem read_threshold_plain_witness :
    (read_th ⟨1, 2, 3⟩ (World.start (bitsOf 0x1FF))).1 = 255
      ∧ (read_tl ⟨1, 2, 3⟩ (World.start (bitsOf 0x32))).1 = 25 :=
  ⟨(read_threshold_plain ⟨1, 2, 3⟩ (World.start (bitsOf 0x1FF)) 0x1FF (by decide)).1,
    (read_threshold_plain ⟨1, 2, 3⟩ (World.start (bitsOf 0x32)) 0x32 (by decide)).2.1⟩

/-! ## Command transmission and data reception -/

theorem newEvents_extend (w : World) (es : List Event) (dq : Nat → Bool) (reads : Nat) :
    newEvents w { trace := w.trace ++ es, dq := dq, reads := reads } = es := by
  simp [newEvents]

/-- The eight transmitted bits, read least significant first, spell the value
modulo 256. -/
theorem sent_bits_sum (c : Int) :
    ((List.range 8).map (fun i : Nat => Int.land (c >>> i) 0x01 * 2 ^ i)).sum = c % 256 := by
  simp only [bit_eq, List.range, List.range.loop, List.map, List.sum_cons, List.sum_nil]
  norm_num
  omega

/-- C9: `send_command c` adds to the trace exactly the eight pulses of the
bits `(c >> i) & 1`, `i = 0..7` in increasing order, each a write of the bit to
DATA followed by CLOCK low and CLOCK high: 24 pin writes and nothing else (no
sample is consumed).  Each level is 0 or 1, the eight levels read least
significant first spell `c mod 256`, and the run is the same as for `c mod 256`:
bits above bit 7 are never transmitted. -/
theorem send_command_pulses (self : DS1620) (c : Int) (w : World) :
    newEvents w (send_command self c w) =
        (List.range 8).flatMap (fun i =>
          [Event.digitalWrite self._DQ (Int.land (c >>> i) 0x01),
            Event.digitalWrite self._CLK LOW, Event.digitalWrite self._CLK HIGH])
      ∧ (newEvents w (send_command self c w)).length = 24
      ∧ (send_command self c w).trace = w.trace ++ newEvents w (send_command self c w)
      ∧ (send_command self c w).reads = w.reads
      ∧ (send_command self c w).dq = w.dq
      ∧ (∀ i : Nat, Int.land (c >>> i) 0x01 = 0 ∨ Int.land (c >>> i) 0x01 = 1)
      ∧ ((List.range 8).map (fun i : Nat => Int.land (c >>> i) 0x01 * 2 ^ i)).sum = c % 256
      ∧ send_command self c w = send_command self (c % 256) w := by
  have hnew : newEvents w (send_command self c w) =
      (List.range 8).flatMap (fun i => pulse self (Int.land (c >>> i) 0x01)) := by
    rw [send_command_eq]; exact newEvents_extend w _ _ _
  refine ⟨hnew, ?_, ?_, ?_, ?_, ?_, sent_bits_sum c, ?_⟩
  · rw [hnew]; simp [List.range, List.range.loop, pulse]
  · rw [hnew, send_command_eq]
  · rw [send_command_eq]
  · rw [send_command_eq]
  · intro i
    rw [land_one_eq]; omega
  · rw [send_command_eq, send_command_eq]
    simp only [bit_eq, List.range, List.range.loop, List.flatMap, List.map, List.flatten]
    norm_num
    have e1 : c % 256 % 2 = c % 2 := by omega
    have e2 : c % 256 / 2 % 2 = c / 2 % 2 := by omega
    have e3 : c % 256 / 4 % 2 = c / 4 % 2 := by omega
    have e4 : c % 256 / 8 % 2 = c / 8 % 2 := by omega
    have e5 : c % 256 / 16 % 2 = c / 16 % 2 := by omega
    have e6 : c % 256 / 32 % 2 = c / 32 % 2 := by omega
    have e7 : c % 256 / 64 % 2 = c / 64 % 2 := by omega
    have e8 : c % 256 / 128 % 2 = c / 128 % 2 := by omega
    simp only [e1, e2, e3, e4, e5, e6, e7, e8]

/-- C10: `receive_data` returns the sum of `b i * 2 ^ i` over the nine sampled
levels `b 0 .. b 8` (each 0 or 1), a value in `0..511`.  It adds to the trace
a switch of DATA to input, then nine times CLOCK low, one sample of DATA, CLOCK
high, then a switch of DATA to output: exactly nine samples, and these two
direction changes only. -/
theorem receive_data_nine_bits (self : DS1620) (w : World) :
    (receive_data self w).1 = ((List.range 9).map (fun i => sample w i * 2 ^ i)).sum
      ∧ (∀ i : Nat, sample w i = 0 ∨ sample w i = 1)
      ∧ 0 ≤ (receive_data self w).1 ∧ (receive_data self w).1 ≤ 511
      ∧ newEvents w (receive_data self w).2 =
          [Event.pinMode self._DQ PinMode.INPUT]
            ++ (List.range 9).flatMap (fun i =>
                [Event.digitalWrite self._CLK LOW, Event.digitalRead self._DQ (sample w i),
                  Event.digitalWrite self._CLK HIGH])
            ++ [Event.pinMode self._DQ PinMode.OUTPUT]
      ∧ (receive_data self w).2.trace = w.trace ++ newEvents w (receive_data self w).2
      ∧ ((newEvents w (receive_data self w).2).filter Event.isRead).length = 9
      ∧ (newEvents w (receive_data self w).2).filter Event.isPinMode =
          [Event.pinMode self._DQ PinMode.INPUT, Event.pinMode self._DQ PinMode.OUTPUT]
      ∧ (receive_data self w).2.reads = w.reads + 9 := by
  have hb := raw9_bounds w
  have hnew : newEvents w (receive_data self w).2 = receiveEvents self w := by
    rw [receive_data_eq]; exact newEvents_extend w _ _ _
  refine ⟨?_, ?_, ?_, ?_, ?_, ?_, ?_, ?_, ?_⟩
  · rw [receive_data_eq]; rfl
  · intro i
    have := sample_bounds w i
    omega
  · rw [receive_data_eq]; exact hb.1
  · rw [receive_data_eq]; exact hb.2
  · rw [hnew]; rfl
  · rw [hnew, receive_data_eq]
  · rw [hnew]
    simp [receiveEvents, samplePulse, List.range, List.range.loop, Event.isRead]
  · rw [hnew]
    simp [receiveEvents, samplePulse, List.range, List.range.loop, Event.isPinMode]
  · rw [receive_data_eq]

/-! ## Threshold round trip -/

theorem write_th_eq (self : DS1620) (t : Int) (w : World) :
    write_th self t w =
      { w with trace := w.trace ++ thresholdEvents self WRITE_TH (wrap16 (t * 2)) } := by
  simp [write_th, send_command_eq, send_bits_eq, rst_start_eq, rst_stop_eq, delay,
    thresholdEvents, List.range_eq_range']

theorem write_tl_eq (self : DS1620) (t : Int) (w : World) :
    write_tl self t w =
      { w with trace := w.trace ++ thresholdEvents self WRITE_TL (wrap16 (t * 2)) } := by
  simp [write_tl, send_command_eq, send_bits_eq, rst_start_eq, rst_stop_eq, delay,
    thresholdEvents, List.range_eq_range']

/-- A threshold write clocks out the eight command bits followed by the nine
low bits of the scaled value. -/
theorem clockedOut_thresholdEvents (self : DS1620) (cmd scaled : Int) :
    clockedOut self (thresholdEvents self cmd scaled) =
      (List.range 8).map (fun i : Nat => Int.land (cmd >>> i) 0x01)
        ++ (List.range 9).map (fun i : Nat => Int.land (scaled >>> i) 0x01) := by
  simp [thresholdEvents, startEvents, pulse, clockedOut, pulseAt, List.range, List.range.loop,
    List.tails, HIGH, LOW]

theorem payloadOf_write_th (self : DS1620) (t : Int) (w : World) :
    payloadOf self w (write_th self t w) =
      (List.range 9).map (fun i : Nat => Int.land (wrap16 (t * 2) >>> i) 0x01) := by
  rw [payloadOf, write_th_eq, newEvents_extend, clockedOut_thresholdEvents self]
  simp [List.range, List.range.loop]

theorem payloadOf_write_tl (self : DS1620) (t : Int) (w : World) :
    payloadOf self w (write_tl self t w) =
      (List.range 9).map (fun i : Nat => Int.land (wrap16 (t * 2) >>> i) 0x01) := by
  rw [payloadOf, write_tl_eq, newEvents_extend, clockedOut_thresholdEvents self]
  simp [List.range, List.range.loop]

/-- Nine samples that repeat the nine low bits of `x` spell `x mod 512`. -/
theorem raw9_of_bits (w : World) (x : Int)
    (h : (List.range 9).map (fun i : Nat => Int.land (x >>> i) 0x01)
      = (List.range 9).map (sample w)) :
    raw9 w = x % 512 := by
  simp only [bit_eq, List.range, List.range.loop, List.map, List.cons.injEq, and_true] at h
  norm_num at h
  obtain ⟨e0, e1, e2, e3, e4, e5, e6, e7, e8⟩ := h
  rw [raw9_expand, ← e0, ← e1, ← e2, ← e3, ← e4, ← e5, ← e6, ← e7, ← e8]
  omega

/-- C4: for `0 ≤ t ≤ 255`, if the nine levels that
`write_th t` (resp. `write_tl t`) clocks out after its command byte are the
nine levels that `read_th` (resp. `read_tl`) then samples, in the same order,
the read returns `t`.  The nine levels spell `encode t`, the low nine bits of
`t * 2`, and `encode t / 2 = t`. -/
theorem threshold_round_trip (self : DS1620) (t : Int) (w w2 : World)
    (h0 : 0 ≤ t) (h255 : t ≤ 255) :
    (payloadOf self w (write_th self t w) = (List.range 9).map (sample w2) →
        (read_th self w2).1 = t)
      ∧ (payloadOf self w (write_tl self t w) = (List.range 9).map (sample w2) →
        (read_tl self w2).1 = t)
      ∧ (payloadOf self w (write_th self t w)).length = 9
      ∧ payloadOf self w (write_tl self t w) = payloadOf self w (write_th self t w)
      ∧ (((List.range 9).zip (payloadOf self w (write_th self t w))).map
          (fun p => p.2 * 2 ^ p.1)).sum = t * 2 % 512
      ∧ Int.tdiv (t * 2 % 512) 2 = t := by
  have hdec : Int.tdiv (t * 2 % 512) 2 = t := by
    rw [Int.tdiv_eq_ediv (by omega) (by omega)]; omega
  have hwrap : wrap16 (t * 2) = t * 2 := wrap16_of_range _ (by omega) (by omega)
  refine ⟨?_, ?_, ?_, ?_, ?_, hdec⟩
  · intro h
    rw [payloadOf_write_th self] at h
    rw [read_th_value, raw9_of_bits w2 _ h, hwrap, hdec]
  · intro h
    rw [payloadOf_write_tl self] at h
    rw [read_tl_value, raw9_of_bits w2 _ h, hwrap, hdec]
  · rw [payloadOf_write_th self]; simp
  · rw [payloadOf_write_th self, payloadOf_write_tl self]
  · rw [payloadOf_write_th self, hwrap]
    simp only [bit_eq, List.range, List.range.loop, List.map, List.zip, List.zipWith,
      List.sum_cons, List.sum_nil]
    norm_num
    omega

/-- Writing 25 clocks out the bits of 50; a read that samples them returns 25. -/
theorem threshold_round_trip_witness :
    (read_th ⟨1, 2, 3⟩ (World.start (bitsOf 50))).1 = 25
      ∧ (read_tl ⟨1, 2, 3⟩ (World.start (bitsOf 50))).1 = 25 :=
  ⟨(threshold_round_trip ⟨1, 2, 3⟩ 25 (World.start (bitsOf 0)) (World.start (bitsOf 50))
      (by decide) (by decide)).1 (by decide),
    (threshold_round_trip ⟨1, 2, 3⟩ 25 (World.start (bitsOf 0)) (World.start (bitsOf 50))
      (by decide) (by decide)).2.1 (by decide)⟩

/-! ## Threshold writes -/

/-- The nine transmitted bits, read least significant first, spell the value
modulo 512. -/
theorem sent_bits9_sum (x : Int) :
    ((List.range 9).map (fun i : Nat => Int.land (x >>> i) 0x01 * 2 ^ i)).sum = x % 512 := by
  simp only [bit_eq, List.range, List.range.loop, List.map, List.sum_cons, List.sum_nil]
  norm_num
  omega

/-- C11: when `t * 2` is representable as an `int`, `write_th t` and
`write_tl t` add to the trace the session start, the eight pulses of their
command byte, then exactly nine pulses whose DATA levels are
`((t * 2) >> n) & 1` for `n = 0..8` in increasing order, then the delay and the
session end.  The nine levels read least significant first spell
`(t * 2) mod 512`; both operations emit the same payload and the same events
after the command byte, and the two command bytes differ. -/
theorem threshold_write_payload (self : DS1620) (t : Int) (w : World)
    (hlo : -32768 ≤ t * 2) (hhi : t * 2 ≤ 32767) :
    newEvents w (write_th self t w) =
        startEvents self
          ++ (List.range 8).flatMap (fun i => pulse self (Int.land (WRITE_TH >>> i) 0x01))
          ++ (List.range 9).flatMap (fun n =>
              [Event.digitalWrite self._DQ (Int.land ((t * 2) >>> n) 0x01),
                Event.digitalWrite self._CLK LOW, Event.digitalWrite self._CLK HIGH])
          ++ [Event.delay WRITE_DELAY, Event.digitalWrite self._RST LOW]
      ∧ newEvents w (write_tl self t w) =
        startEvents self
          ++ (List.range 8).flatMap (fun i => pulse self (Int.land (WRITE_TL >>> i) 0x01))
          ++ (List.range 9).flatMap (fun n =>
              [Event.digitalWrite self._DQ (Int.land ((t * 2) >>> n) 0x01),
                Event.digitalWrite self._CLK LOW, Event.digitalWrite self._CLK HIGH])
          ++ [Event.delay WRITE_DELAY, Event.digitalWrite self._RST LOW]
      ∧ payloadOf self w (write_th self t w) =
        (List.range 9).map (fun n : Nat => Int.land ((t * 2) >>> n) 0x01)
      ∧ payloadOf self w (write_tl self t w) = payloadOf self w (write_th self t w)
      ∧ (payloadOf self w (write_th self t w)).length = 9
      ∧ ((List.range 9).map (fun n : Nat => Int.land ((t * 2) >>> n) 0x01 * 2 ^ n)).sum
          = t * 2 % 512
      ∧ (newEvents w (write_tl self t w)).drop 27 = (newEvents w (write_th self t w)).drop 27
      ∧ WRITE_TH ≠ WRITE_TL := by
  have hwrap : wrap16 (t * 2) = t * 2 := wrap16_of_range _ hlo hhi
  have hth : newEvents w (write_th self t w) = thresholdEvents self WRITE_TH (t * 2) := by
    rw [write_th_eq, hwrap]; exact newEvents_extend w _ _ _
  have htl : newEvents w (write_tl self t w) = thresholdEvents self WRITE_TL (t * 2) := by
    rw [write_tl_eq, hwrap]; exact newEvents_extend w _ _ _
  refine ⟨?_, ?_, ?_, ?_, ?_, sent_bits9_sum (t * 2), ?_, by decide⟩
  · rw [hth]; rfl
  · rw [htl]; rfl
  · rw [payloadOf_write_th, hwrap]
  · rw [payloadOf_write_th, payloadOf_write_tl]
  · rw [payloadOf_write_th]; simp
  · rw [hth, htl]
    simp [thresholdEvents, startEvents, pulse, List.range, List.range.loop]

/-- Writing 25 and writing -1: the payloads are the bits of 50 and of 510. -/
theorem threshold_write_payload_witness :
    payloadOf ⟨1, 2, 3⟩ (World.start (bitsOf 0)) (write_th ⟨1, 2, 3⟩ 25 (World.start (bitsOf 0)))
        = [0, 1, 0, 0, 1, 1, 0, 0, 0]
      ∧ (payloadOf ⟨1, 2, 3⟩ (World.start (bitsOf 0))
          (write_th ⟨1, 2, 3⟩ (-1) (World.start (bitsOf 0)))).length = 9 :=
  ⟨(threshold_write_payload ⟨1, 2, 3⟩ 25 (World.start (bitsOf 0))
      (by decide) (by decide)).2.2.1.trans (by decide),
    (threshold_write_payload ⟨1, 2, 3⟩ (-1) (World.start (bitsOf 0))
      (by decide) (by decide)).2.2.2.2.1⟩

/-! ## Range of the temperature, negative thresholds, wide configuration values -/

/-- The value `read_temp` returns, with the C division spelled out. -/
theorem read_temp_value_cases (self : DS1620) (w : World) :
    (raw9 w < 256 → (read_temp self w).1 = raw9 w / 2)
      ∧ (256 ≤ raw9 w → (read_temp self w).1 = -((512 - raw9 w) / 2)) := by
  have hb := raw9_bounds w
  constructor
  · intro h
    rw [read_temp_value_eq, if_pos h, Int.tdiv_eq_ediv hb.1 (by omega)]
  · intro h
    have hn : ¬ raw9 w < 256 := by omega
    rw [read_temp_value_eq, if_neg hn, show raw9 w - 512 = -(512 - raw9 w) by ring,
      Int.neg_tdiv, Int.tdiv_eq_ediv (by omega) (by omega)]

/-- C15: for every sequence of nine sampled DATA levels, `read_temp` returns a
value in `-128..127`; it returns -128 exactly for the word `0x100`, 127 exactly
for the words `0xFE` and `0xFF`, and 0 for the word `0x1FF`. -/
theorem read_temp_range (self : DS1620) (w : World) :
    -128 ≤ (read_temp self w).1 ∧ (read_temp self w).1 ≤ 127
      ∧ ((read_temp self w).1 = -128 ↔ raw9 w = 0x100)
      ∧ ((read_temp self w).1 = 127 ↔ (raw9 w = 0xFE ∨ raw9 w = 0xFF))
      ∧ (raw9 w = 0x1FF → (read_temp self w).1 = 0) := by
  have hb := raw9_bounds w
  have hc := read_temp_value_cases self w
  by_cases h : raw9 w < 256
  · have e := hc.1 h
    rw [e]
    refine ⟨by omega, by omega, ?_, ?_, ?_⟩
    · constructor <;> intro h2 <;> omega
    · constructor <;> intro h2 <;> omega
    · intro h2; omega
  · have e := hc.2 (by omega)
    rw [e]
    refine ⟨by omega, by omega, ?_, ?_, ?_⟩
    · constructor <;> intro h2 <;> omega
    · constructor <;> intro h2 <;> omega
    · intro h2; omega

/-- The words `0x1FF`, `0x100`, `0xFE` and `0xFF` decode to 0, -128, 127, 127. -/
theorem read_temp_range_witness :
    (read_temp ⟨1, 2, 3⟩ (World.start (bitsOf 0x1FF))).1 = 0
      ∧ (read_temp ⟨1, 2, 3⟩ (World.start (bitsOf 0x100))).1 = -128
      ∧ (read_temp ⟨1, 2, 3⟩ (World.start (bitsOf 0xFE))).1 = 127
      ∧ (read_temp ⟨1, 2, 3⟩ (World.start (bitsOf 0xFF))).1 = 127 :=
  ⟨(read_temp_range ⟨1, 2, 3⟩ (World.start (bitsOf 0x1FF))).2.2.2.2 (by decide),
    (read_temp_range ⟨1, 2, 3⟩ (World.start (bitsOf 0x100))).2.2.1.2 (by decide),
    (read_temp_range ⟨1, 2, 3⟩ (World.start (bitsOf 0xFE))).2.2.2.1.2 (Or.inl (by decide)),
    (read_temp_range ⟨1, 2, 3⟩ (World.start (bitsOf 0xFF))).2.2.2.1.2 (Or.inr (by decide))⟩

/-- C16: for every whole-degree `t`, if the nine levels that `write_th t`
(resp. `write_tl t`) clocks out after its command byte are the nine levels
that `read_th` (resp. `read_tl`) then samples, the read returns `t mod 256`;
for `-256 ≤ t ≤ -1` that is `t + 256`, not `t`. -/
theorem threshold_round_trip_mod (self : DS1620) (t : Int) (w w2 : World) :
    (payloadOf self w (write_th self t w) = (List.range 9).map (sample w2) →
        (read_th self w2).1 = t % 256)
      ∧ (payloadOf self w (write_tl self t w) = (List.range 9).map (sample w2) →
        (read_tl self w2).1 = t % 256)
      ∧ (-256 ≤ t → t ≤ -1 → t % 256 = t + 256 ∧ t % 256 ≠ t) := by
  have hdec : Int.tdiv (wrap16 (t * 2) % 512) 2 = t % 256 := by
    rw [Int.tdiv_eq_ediv (by omega) (by omega)]
    unfold wrap16
    omega
  refine ⟨?_, ?_, ?_⟩
  · intro h
    rw [payloadOf_write_th] at h
    rw [read_th_value, raw9_of_bits w2 _ h, hdec]
  · intro h
    rw [payloadOf_write_tl] at h
    rw [read_tl_value, raw9_of_bits w2 _ h, hdec]
  · intro h1 h2
    omega

/-- Writing -1 clocks out the bits of 510; a read that samples them returns
255. -/
theorem threshold_round_trip_mod_witness :
    (read_th ⟨1, 2, 3⟩ (World.start (bitsOf 510))).1 = 255
      ∧ (read_tl ⟨1, 2, 3⟩ (World.start (bitsOf 510))).1 = 255
      ∧ ((-1 : Int) % 256 = -1 + 256 ∧ (-1 : Int) % 256 ≠ -1) :=
  ⟨((threshold_round_trip_mod ⟨1, 2, 3⟩ (-1) (World.start (bitsOf 0))
      (World.start (bitsOf 510))).1
        (by rw [payloadOf_write_th]; simp only [bit_eq]; decide)).trans (by decide),
    ((threshold_round_trip_mod ⟨1, 2, 3⟩ (-1) (World.start (bitsOf 0))
      (World.start (bitsOf 510))).2.1
        (by rw [payloadOf_write_tl]; simp only [bit_eq]; decide)).trans (by decide),
    (threshold_round_trip_mod ⟨1, 2, 3⟩ (-1) (World.start (bitsOf 0))
      (World.start (bitsOf 510))).2.2 (by decide) (by decide)⟩

/-- Only the low eight bits of its argument reach `send_command`. -/
theorem send_command_low_byte (self : DS1620) (c : Int) (w : World) :
    send_command self c w = send_command self (c % 256) w := by
  rw [send_command_eq, send_command_eq]
  simp only [bit_eq, List.range, List.range.loop, List.flatMap, List.map, List.flatten]
  norm_num
  have e1 : c % 256 % 2 = c % 2 := by omega
  have e2 : c % 256 / 2 % 2 = c / 2 % 2 := by omega
  have e3 : c % 256 / 4 % 2 = c / 4 % 2 := by omega
  have e4 : c % 256 / 8 % 2 = c / 8 % 2 := by omega
  have e5 : c % 256 / 16 % 2 = c / 16 % 2 := by omega
  have e6 : c % 256 / 32 % 2 = c / 32 % 2 := by omega
  have e7 : c % 256 / 64 % 2 = c / 64 % 2 := by omega
  have e8 : c % 256 / 128 % 2 = c / 128 % 2 := by omega
  simp only [e1, e2, e3, e4, e5, e6, e7, e8]

/-- C17: for every configuration value `v ≥ 512` and every sequence of sampled
DATA levels, `write_config v` returns 1: the write session is the one of
`v mod 256` (only the low eight bits are transmitted) and the read-back value
is at most 511.  Hence `write_config` returns 0 only when `1 ≤ v ≤ 511`. -/
theorem write_config_wide (self : DS1620) (v : Int) (w : World) :
    (512 ≤ v → (write_config self v w).1 = 1 ∧ (write_config self v w).1 ≠ 0)
      ∧ ((write_config self v w).1 = 0 → 1 ≤ v ∧ v ≤ 511)
      ∧ write_config_session self v w = write_config_session self (v % 256) w
      ∧ (read_config self (write_config_session self v w)).1 ≤ 511 := by
  have hb := raw9_bounds w
  have hrb : (read_config self (write_config_session self v w)).1 = raw9 w := by
    rw [read_config_value, raw9_after_write_session]
  have hval : (write_config self v w).1 =
      if v > 0 then (if raw9 w = v then 0 else 1) else 2 := by
    unfold write_config
    split
    · dsimp only
      rw [hrb]
      split <;> rfl
    · rfl
  refine ⟨?_, ?_, ?_, ?_⟩
  · intro hv
    have h1 : v > 0 := by omega
    have h2 : ¬ raw9 w = v := by omega
    rw [hval, if_pos h1, if_neg h2]
    exact ⟨rfl, by decide⟩
  · intro h0
    rw [hval] at h0
    by_cases h1 : v > 0
    · rw [if_pos h1] at h0
      by_cases h2 : raw9 w = v
      · omega
      · rw [if_neg h2] at h0; omega
    · rw [if_neg h1] at h0; omega
  · unfold write_config_session
    dsimp only
    rw [send_command_low_byte self v]
  · rw [hrb]; exact hb.2

/-- Writing 522 (low byte 10) with a read-back of 10, and writing 600 with
every sampled level high: both return 1. -/
theorem write_config_wide_witness :
    (write_config ⟨1, 2, 3⟩ 522 (World.start (bitsOf 10))).1 = 1
      ∧ (write_config ⟨1, 2, 3⟩ 600 (World.start (fun _ => true))).1 = 1 :=
  ⟨((write_config_wide ⟨1, 2, 3⟩ 522 (World.start (bitsOf 10))).1 (by decide)).1,
    ((write_config_wide ⟨1, 2, 3⟩ 600 (World.start (fun _ => true))).1 (by decide)).1⟩

/-! ## Traces of the public operations -/

theorem sample_after_command (self : DS1620) (cmd : Int) (w : World) :
    sample (send_command self cmd (rst_start self w)) = sample w := by
  apply sample_congr <;> simp [send_command_eq, rst_start_eq]

theorem receiveEvents_after_command (self : DS1620) (cmd : Int) (w : World) :
    receiveEvents self (send_command self cmd (rst_start self w)) = receiveEvents self w := by
  simp only [receiveEvents, sample_after_command]

/-- The world after a read operation with command `cmd`. -/
theorem read_world (self : DS1620) (cmd : Int) (w : World) :
    rst_stop self (receive_data self (send_command self cmd (rst_start self w))).2 =
      { trace := w.trace ++ readEvents self cmd w, dq := w.dq, reads := w.reads + 9 } := by
  rw [receive_data_eq, receiveEvents_after_command, rst_stop_eq]
  simp [send_command_eq, rst_start_eq, readEvents, commandEvents]

theorem write_config_session_eq (self : DS1620) (v : Int) (w : World) :
    write_config_session self v w = { w with trace := w.trace ++ configEvents self v } := by
  simp [write_config_session, send_command_eq, rst_start_eq, rst_stop_eq, delay, configEvents,
    commandEvents]

/-- Every public operation extends the trace by its events and consumes its
samples. -/
theorem exec_eq (self : DS1620) (op : Op) (w : World) :
    op.exec self w =
      { trace := w.trace ++ op.events self w, dq := w.dq, reads := w.reads + op.samples } := by
  cases op with
  | read_temp => exact read_world self READ_TEMP w
  | write_th t => rw [Op.exec, write_th_eq]; rfl
  | write_tl t => rw [Op.exec, write_tl_eq]; rfl
  | read_th => exact read_world self READ_TH w
  | read_tl => exact read_world self READ_TL w
  | read_counter => exact read_world self READ_CNTR w
  | read_slope => exact read_world self READ_SLOPE w
  | start_conv =>
    simp [Op.exec, start_conv, send_command_eq, rst_start_eq, rst_stop_eq, Op.events,
      plainEvents, commandEvents, Op.samples]
  | stop_conv =>
    simp [Op.exec, stop_conv, send_command_eq, rst_start_eq, rst_stop_eq, Op.events,
      plainEvents, commandEvents, Op.samples]
  | write_config v =>
    by_cases hv : v > 0
    · have h := read_world self READ_CFG (write_config_session self v w)
      have hs : sample (write_config_session self v w) = sample w :=
        sample_congr (by rw [write_config_session_eq]) (by rw [write_config_session_eq])
      have hr : readEvents self READ_CFG (write_config_session self v w)
          = readEvents self READ_CFG w := by
        simp only [readEvents, receiveEvents, hs]
      simp only [Op.exec, write_config, hv, if_true, read_config, Op.events, Op.samples]
      split <;> (rw [h, hr, write_config_session_eq]; simp)
    · simp [Op.exec, write_config, hv, Op.events, Op.samples]
  | read_config => exact read_world self READ_CFG w

theorem newEvents_exec (self : DS1620) (op : Op) (w : World) :
    newEvents w (op.exec self w) = op.events self w := by
  rw [exec_eq]; exact newEvents_extend w _ _ _

/-! ## Session discipline -/

theorem sessions_readEvents (self : DS1620) (hw : Wired self) (cmd : Int) (w : World)
    (b e o : Nat) :
    (readEvents self cmd w).foldl (Sessions.step self) ⟨false, b, e, o⟩ =
      ⟨false, b + 1, e + 1, o⟩ := by
  obtain ⟨h1, h2, h3⟩ := hw
  have h1s : self._CLK ≠ self._DQ := fun h => h1 h.symm
  simp [readEvents, commandEvents, receiveEvents, startEvents, pulse, samplePulse,
    Sessions.step, List.range, List.range.loop, HIGH, LOW, h1, h2, h3, h1s]

theorem sessions_plainEvents (self : DS1620) (hw : Wired self) (cmd : Int) (b e o : Nat) :
    (plainEvents self cmd).foldl (Sessions.step self) ⟨false, b, e, o⟩ =
      ⟨false, b + 1, e + 1, o⟩ := by
  obtain ⟨h1, h2, h3⟩ := hw
  have h1s : self._CLK ≠ self._DQ := fun h => h1 h.symm
  simp [plainEvents, commandEvents, startEvents, pulse,
    Sessions.step, List.range, List.range.loop, HIGH, LOW, h1, h2, h3, h1s]

theorem sessions_thresholdEvents (self : DS1620) (hw : Wired self) (cmd scaled : Int)
    (b e o : Nat) :
    (thresholdEvents self cmd scaled).foldl (Sessions.step self) ⟨false, b, e, o⟩ =
      ⟨false, b + 1, e + 1, o⟩ := by
  obtain ⟨h1, h2, h3⟩ := hw
  have h1s : self._CLK ≠ self._DQ := fun h => h1 h.symm
  simp [thresholdEvents, startEvents, pulse,
    Sessions.step, List.range, List.range.loop, HIGH, LOW, h1, h2, h3, h1s]

theorem sessions_configEvents (self : DS1620) (hw : Wired self) (v : Int) (b e o : Nat) :
    (configEvents self v).foldl (Sessions.step self) ⟨false, b, e, o⟩ =
      ⟨false, b + 1, e + 1, o⟩ := by
  obtain ⟨h1, h2, h3⟩ := hw
  have h1s : self._CLK ≠ self._DQ := fun h => h1 h.symm
  simp [configEvents, commandEvents, startEvents, pulse,
    Sessions.step, List.range, List.range.loop, HIGH, LOW, h1, h2, h3, h1s]

/-- On three distinct pins, the RESET line over the events of an operation:
as many sessions begun as ended, RESET low at the end, and no bit exchanged
while RESET is low. -/
theorem sessionsOf_events (self : DS1620) (hw : Wired self) (op : Op) (w : World) :
    sessionsOf self (op.events self w) = ⟨false, op.sessions, op.sessions, 0⟩ := by
  unfold sessionsOf
  cases op with
  | read_temp => exact sessions_readEvents self hw _ w 0 0 0
  | write_th t => exact sessions_thresholdEvents self hw _ _ 0 0 0
  | write_tl t => exact sessions_thresholdEvents self hw _ _ 0 0 0
  | read_th => exact sessions_readEvents self hw _ w 0 0 0
  | read_tl => exact sessions_readEvents self hw _ w 0 0 0
  | read_counter => exact sessions_readEvents self hw _ w 0 0 0
  | read_slope => exact sessions_readEvents self hw _ w 0 0 0
  | start_conv => exact sessions_plainEvents self hw _ 0 0 0
  | stop_conv => exact sessions_plainEvents self hw _ 0 0 0
  | write_config v =>
    by_cases hv : v > 0
    · simp only [Op.events, Op.sessions, hv, if_true, List.foldl_append]
      rw [sessions_configEvents self hw, sessions_readEvents self hw]
    · simp [Op.events, Op.sessions, hv]
  | read_config => exact sessions_readEvents self hw _ w 0 0 0

theorem startCount_readEvents (self : DS1620) (hw : Wired self) (cmd : Int) (w : World) :
    startCount self (readEvents self cmd w) = 1 := by
  obtain ⟨h1, h2, h3⟩ := hw
  have h1s : self._CLK ≠ self._DQ := fun h => h1 h.symm
  simp [startCount, startAt, readEvents, commandEvents, receiveEvents, startEvents, pulse,
    samplePulse, List.range, List.range.loop, List.tails, HIGH, LOW, h1, h2, h3, h1s]

theorem startCount_plainEvents (self : DS1620) (hw : Wired self) (cmd : Int) :
    startCount self (plainEvents self cmd) = 1 := by
  obtain ⟨h1, h2, h3⟩ := hw
  have h1s : self._CLK ≠ self._DQ := fun h => h1 h.symm
  simp [startCount, startAt, plainEvents, commandEvents, startEvents, pulse,
    List.range, List.range.loop, List.tails, HIGH, LOW, h1, h2, h3, h1s]

theorem startCount_thresholdEvents (self : DS1620) (hw : Wired self) (cmd scaled : Int) :
    startCount self (thresholdEvents self cmd scaled) = 1 := by
  obtain ⟨h1, h2, h3⟩ := hw
  have h1s : self._CLK ≠ self._DQ := fun h => h1 h.symm
  simp [startCount, startAt, thresholdEvents, startEvents, pulse,
    List.range, List.range.loop, List.tails, HIGH, LOW, h1, h2, h3, h1s]

theorem startCount_configEvents (self : DS1620) (hw : Wired self) (v : Int) (w : World) :
    startCount self (configEvents self v ++ readEvents self READ_CFG w) = 2 := by
  obtain ⟨h1, h2, h3⟩ := hw
  have h1s : self._CLK ≠ self._DQ := fun h => h1 h.symm
  simp [startCount, startAt, configEvents, readEvents, commandEvents, receiveEvents,
    startEvents, pulse, samplePulse, List.range, List.range.loop, List.tails, HIGH, LOW,
    h1, h2, h3, h1s]

/-- On three distinct pins, the sequence RESET low, CLOCK high, RESET high
occurs in the events of an operation once per session. -/
theorem startCount_events (self : DS1620) (hw : Wired self) (op : Op) (w : World) :
    startCount self (op.events self w) = op.sessions := by
  cases op with
  | read_temp => exact startCount_readEvents self hw _ w
  | write_th t => exact startCount_thresholdEvents self hw _ _
  | write_tl t => exact startCount_thresholdEvents self hw _ _
  | read_th => exact startCount_readEvents self hw _ w
  | read_tl => exact startCount_readEvents self hw _ w
  | read_counter => exact startCount_readEvents self hw _ w
  | read_slope => exact startCount_readEvents self hw _ w
  | start_conv => exact startCount_plainEvents self hw _
  | stop_conv => exact startCount_plainEvents self hw _
  | write_config v =>
    by_cases hv : v > 0
    · simp only [Op.events, Op.sessions, hv, if_true]
      exact startCount_configEvents self hw v w
    · simp [Op.events, Op.sessions, hv, startCount, startAt]
  | read_config => exact startCount_readEvents self hw _ w

/-- The events of an operation that reaches the lines start with the sequence
RESET low, CLOCK high, RESET high and end with RESET low. -/
theorem events_frame (self : DS1620) (op : Op) (w : World) (hio : op.performsIO = true) :
    (op.events self w).take 3 = startEvents self
      ∧ (op.events self w).getLast? = some (Event.digitalWrite self._RST LOW) := by
  constructor
  · cases op with
    | write_config v =>
      have hv : v > 0 := by simpa [Op.performsIO] using hio
      simp [Op.events, hv, configEvents, readEvents, startEvents]
    | write_th t => simp [Op.events, thresholdEvents, startEvents]
    | write_tl t => simp [Op.events, thresholdEvents, startEvents]
    | start_conv => simp [Op.events, plainEvents, startEvents]
    | stop_conv => simp [Op.events, plainEvents, startEvents]
    | _ => simp [Op.events, readEvents, startEvents]
  · cases op with
    | write_config v =>
      have hv : v > 0 := by simpa [Op.performsIO] using hio
      simp only [Op.events, hv, if_true, readEvents]
      rw [← List.append_assoc (configEvents self v)]
      exact List.getLast?_concat _
    | write_th t => simp [Op.events, thresholdEvents]
    | write_tl t => simp [Op.events, thresholdEvents]
    | start_conv => simp [Op.events, plainEvents]
    | stop_conv => simp [Op.events, plainEvents]
    | _ => simp [Op.events, readEvents]

/-- The byte spelled by the eight command bits. -/
theorem decodeLSB_command (c : Int) :
    decodeLSB ((List.range 8).map (fun i : Nat => Int.land (c >>> i) 0x01)) = c % 256 := by
  simp only [bit_eq, List.range, List.range.loop, List.map, decodeLSB]
  norm_num
  omega

theorem clockedOut_readEvents (self : DS1620) (cmd : Int) (w : World) :
    (clockedOut self (readEvents self cmd w)).take 8 =
      (List.range 8).map (fun i : Nat => Int.land (cmd >>> i) 0x01) := by
  simp [readEvents, commandEvents, receiveEvents, startEvents, pulse, samplePulse, clockedOut,
    pulseAt, List.range, List.range.loop, List.tails, HIGH, LOW]

theorem clockedOut_plainEvents (self : DS1620) (cmd : Int) :
    (clockedOut self (plainEvents self cmd)).take 8 =
      (List.range 8).map (fun i : Nat => Int.land (cmd >>> i) 0x01) := by
  simp [plainEvents, commandEvents, startEvents, pulse, clockedOut,
    pulseAt, List.range, List.range.loop, List.tails, HIGH, LOW]

theorem clockedOut_thresholdEvents_take (self : DS1620) (cmd scaled : Int) :
    (clockedOut self (thresholdEvents self cmd scaled)).take 8 =
      (List.range 8).map (fun i : Nat => Int.land (cmd >>> i) 0x01) := by
  rw [clockedOut_thresholdEvents]
  simp [List.range, List.range.loop]

theorem clockedOut_configEvents (self : DS1620) (v : Int) (rest : List Event) :
    (clockedOut self (configEvents self v ++ rest)).take 8 =
      (List.range 8).map (fun i : Nat => Int.land (WRITE_CFG >>> i) 0x01) := by
  simp [configEvents, commandEvents, startEvents, pulse, clockedOut,
    pulseAt, List.range, List.range.loop, List.tails, HIGH, LOW]

/-- The first eight levels an operation clocks out spell its opcode. -/
theorem firstByte_events (self : DS1620) (op : Op) (w : World) (hio : op.performsIO = true) :
    firstByte self (op.events self w) = op.opcode := by
  unfold firstByte
  cases op with
  | read_temp => rw [Op.events, clockedOut_readEvents, decodeLSB_command]; decide
  | write_th t =>
    rw [Op.events, clockedOut_thresholdEvents_take, decodeLSB_command]
    exact (by decide : WRITE_TH % 256 = 0x01)
  | write_tl t =>
    rw [Op.events, clockedOut_thresholdEvents_take, decodeLSB_command]
    exact (by decide : WRITE_TL % 256 = 0x02)
  | read_th => rw [Op.events, clockedOut_readEvents, decodeLSB_command]; decide
  | read_tl => rw [Op.events, clockedOut_readEvents, decodeLSB_command]; decide
  | read_counter => rw [Op.events, clockedOut_readEvents, decodeLSB_command]; decide
  | read_slope => rw [Op.events, clockedOut_readEvents, decodeLSB_command]; decide
  | start_conv => rw [Op.events, clockedOut_plainEvents, decodeLSB_command]; decide
  | stop_conv => rw [Op.events, clockedOut_plainEvents, decodeLSB_command]; decide
  | write_config v =>
    have hv : v > 0 := by simpa [Op.performsIO] using hio
    simp only [Op.events, hv, if_true]
    rw [clockedOut_configEvents, decodeLSB_command]
    exact (by decide : WRITE_CFG % 256 = 0x0C)
  | read_config => rw [Op.events, clockedOut_readEvents, decodeLSB_command]; decide

/-- The events of an operation start with the session start and the eight
pulses of its opcode. -/
theorem events_prefix (self : DS1620) (op : Op) (w : World) (hio : op.performsIO = true) :
    (op.events self w).take 27 = startEvents self ++ commandEvents self op.opcode := by
  cases op with
  | write_config v =>
    have hv : v > 0 := by simpa [Op.performsIO] using hio
    simp [Op.events, hv, configEvents, readEvents, startEvents, commandEvents, pulse,
      List.range, List.range.loop, Op.opcode, WRITE_CFG]
  | write_th t =>
    simp [Op.events, thresholdEvents, startEvents, commandEvents, pulse,
      List.range, List.range.loop, Op.opcode, WRITE_TH]
  | write_tl t =>
    simp [Op.events, thresholdEvents, startEvents, commandEvents, pulse,
      List.range, List.range.loop, Op.opcode, WRITE_TL]
  | start_conv =>
    simp [Op.events, plainEvents, startEvents, commandEvents, pulse,
      List.range, List.range.loop, Op.opcode, START_CNV]
  | stop_conv =>
    simp [Op.events, plainEvents, startEvents, commandEvents, pulse,
      List.range, List.range.loop, Op.opcode, STOP_CNV]
  | _ =>
    simp [Op.events, readEvents, startEvents, commandEvents, pulse,
      List.range, List.range.loop, Op.opcode, READ_TEMP, READ_TH, READ_TL, READ_CNTR,
      READ_SLOPE, READ_CFG]

/-- C13: every public operation that reaches the lines (all but `write_config`
of a value that is not positive) adds to the trace first the session start and
then the eight pulses of its opcode, and the first eight levels it clocks out,
read least significant first, spell that opcode: `read_temp` 0xAA, `write_th`
0x01, `write_tl` 0x02, `read_th` 0xA1, `read_tl` 0xA2, `read_counter` 0xA0,
`read_slope` 0xA9, `start_conv` 0xEE, `stop_conv` 0x22, `write_config` 0x0C,
`read_config` 0xAC.  The eleven opcodes are pairwise distinct. -/
theorem opcode_sent_first (self : DS1620) (op : Op) (w : World)
    (hio : op.performsIO = true) :
    firstByte self (newEvents w (op.exec self w)) = op.opcode
      ∧ (newEvents w (op.exec self w)).take 27 = startEvents self ++ commandEvents self op.opcode
      ∧ [Op.read_temp, Op.write_th 0, Op.write_tl 0, Op.read_th, Op.read_tl, Op.read_counter,
          Op.read_slope, Op.start_conv, Op.stop_conv, Op.write_config 1, Op.read_config].map
            Op.opcode
          = [0xAA, 0x01, 0x02, 0xA1, 0xA2, 0xA0, 0xA9, 0xEE, 0x22, 0x0C, 0xAC]
      ∧ [READ_TEMP, WRITE_TH, WRITE_TL, READ_TH, READ_TL, READ_CNTR, READ_SLOPE, START_CNV,
          STOP_CNV, WRITE_CFG, READ_CFG]
          = [0xAA, 0x01, 0x02, 0xA1, 0xA2, 0xA0, 0xA9, 0xEE, 0x22, 0x0C, 0xAC]
      ∧ ([0xAA, 0x01, 0x02, 0xA1, 0xA2, 0xA0, 0xA9, 0xEE, 0x22, 0x0C, 0xAC] : List Int).Nodup := by
  rw [newEvents_exec]
  exact ⟨firstByte_events self op w hio, events_prefix self op w hio, by decide, by decide,
    by decide⟩

/-- The first byte of `read_temp` is 0xAA, of `write_config 10` it is 0x0C. -/
theorem opcode_sent_first_witness :
    firstByte ⟨1, 2, 3⟩ (newEvents (World.start (bitsOf 20))
        (Op.exec ⟨1, 2, 3⟩ Op.read_temp (World.start (bitsOf 20)))) = 0xAA
      ∧ firstByte ⟨1, 2, 3⟩ (newEvents (World.start (bitsOf 20))
        (Op.exec ⟨1, 2, 3⟩ (Op.write_config 10) (World.start (bitsOf 20)))) = 0x0C :=
  ⟨(opcode_sent_first ⟨1, 2, 3⟩ Op.read_temp (World.start (bitsOf 20)) (by decide)).1,
    (opcode_sent_first ⟨1, 2, 3⟩ (Op.write_config 10) (World.start (bitsOf 20))
      (by decide)).1⟩

/-! ## The write delay -/

theorem delaysOf_append (a b : List Event) : delaysOf (a ++ b) = delaysOf a ++ delaysOf b := by
  induction a with
  | nil => rfl
  | cons e es ih => cases e <;> simp [delaysOf, ih]

theorem delaysOf_commandEvents (self : DS1620) (cmd : Int) :
    delaysOf (commandEvents self cmd) = [] := by
  simp [commandEvents, pulse, List.range, List.range.loop, delaysOf]

theorem delaysOf_readEvents (self : DS1620) (cmd : Int) (w : World) :
    delaysOf (readEvents self cmd w) = [] := by
  simp [readEvents, receiveEvents, startEvents, samplePulse, List.range, List.range.loop,
    delaysOf, delaysOf_append, delaysOf_commandEvents]

theorem delaysOf_plainEvents (self : DS1620) (cmd : Int) :
    delaysOf (plainEvents self cmd) = [] := by
  simp [plainEvents, startEvents, delaysOf, delaysOf_append, delaysOf_commandEvents]

theorem delaysOf_thresholdEvents (self : DS1620) (cmd scaled : Int) :
    delaysOf (thresholdEvents self cmd scaled) = [WRITE_DELAY] := by
  simp [thresholdEvents, startEvents, pulse, List.range, List.range.loop, delaysOf,
    delaysOf_append]

theorem delaysOf_configEvents (self : DS1620) (v : Int) :
    delaysOf (configEvents self v) = [WRITE_DELAY] := by
  simp [configEvents, startEvents, delaysOf, delaysOf_append, delaysOf_commandEvents]

/-- The delays among the events of an operation. -/
theorem delaysOf_events (self : DS1620) (op : Op) (w : World) :
    delaysOf (op.events self w) = if op.isWrite = true then [WRITE_DELAY] else [] := by
  cases op with
  | write_th t => exact delaysOf_thresholdEvents self _ _
  | write_tl t => exact delaysOf_thresholdEvents self _ _
  | start_conv => exact delaysOf_plainEvents self _
  | stop_conv => exact delaysOf_plainEvents self _
  | write_config v =>
    by_cases hv : v > 0
    · simp [Op.events, Op.isWrite, hv, delaysOf_append, delaysOf_configEvents,
        delaysOf_readEvents]
    · simp [Op.events, Op.isWrite, hv, delaysOf]
  | _ => exact delaysOf_readEvents self _ w

/-- C14: among the events of a public operation there is exactly one delay
when the operation is `write_th`, `write_tl` or `write_config v` with `v > 0`,
and none otherwise.  In the three writes the delay, of `WRITE_DELAY = 20 ≥ 10`
milliseconds, directly follows the last payload pulse and is directly followed
by the RESET low that closes the write session. -/
theorem write_delay_once (self : DS1620) (op : Op) (w : World) (t v : Int) :
    delaysOf (newEvents w (op.exec self w)) = (if op.isWrite = true then [WRITE_DELAY] else [])
      ∧ (op.isWrite = true ↔
          ((∃ x, op = Op.write_th x) ∨ (∃ x, op = Op.write_tl x)
            ∨ (∃ x, 0 < x ∧ op = Op.write_config x)))
      ∧ 10 ≤ WRITE_DELAY
      ∧ newEvents w (write_th self t w) =
          startEvents self ++ commandEvents self WRITE_TH
            ++ (List.range 9).flatMap (fun n => pulse self (Int.land (wrap16 (t * 2) >>> n) 0x01))
            ++ [Event.delay WRITE_DELAY, Event.digitalWrite self._RST LOW]
      ∧ newEvents w (write_tl self t w) =
          startEvents self ++ commandEvents self WRITE_TL
            ++ (List.range 9).flatMap (fun n => pulse self (Int.land (wrap16 (t * 2) >>> n) 0x01))
            ++ [Event.delay WRITE_DELAY, Event.digitalWrite self._RST LOW]
      ∧ (0 < v →
          newEvents w (write_config self v w).2 =
            startEvents self ++ commandEvents self WRITE_CFG
              ++ (List.range 8).flatMap (fun n => pulse self (Int.land (v >>> n) 0x01))
              ++ [Event.delay WRITE_DELAY, Event.digitalWrite self._RST LOW]
              ++ readEvents self READ_CFG w
            ∧ delaysOf (readEvents self READ_CFG w) = []) := by
  refine ⟨?_, ?_, by decide, ?_, ?_, ?_⟩
  · rw [newEvents_exec]; exact delaysOf_events self op w
  · cases op <;> simp [Op.isWrite]
  · exact newEvents_exec self (Op.write_th t) w
  · exact newEvents_exec self (Op.write_tl t) w
  · intro hv
    have hv2 : v > 0 := hv
    refine ⟨?_, delaysOf_readEvents self _ w⟩
    have h := newEvents_exec self (Op.write_config v) w
    simp only [Op.events, hv2, if_true] at h
    exact h

/-- The write of the configuration value 10 delays once, for 20 ms. -/
theorem write_delay_once_witness :
    delaysOf (newEvents (World.start (bitsOf 10))
        (write_config ⟨1, 2, 3⟩ 10 (World.start (bitsOf 10))).2) = [20] := by
  have h := (write_delay_once ⟨1, 2, 3⟩ Op.read_temp (World.start (bitsOf 10)) 0 10).2.2.2.2.2
    (by decide)
  rw [h.1]
  decide

/-! ## Idle state of the lines -/

theorem modeOf_append (pin : Int) (init : Option PinMode) (a b : List Event) :
    modeOf pin init (a ++ b) = modeOf pin (modeOf pin init a) b := by
  simp [modeOf]

theorem lastWrite_append (pin : Int) (init : Option Int) (a b : List Event) :
    lastWrite pin init (a ++ b) = lastWrite pin (lastWrite pin init a) b := by
  simp [lastWrite]

theorem modeOf_readEvents (self : DS1620) (cmd : Int) (w : World) (init : Option PinMode) :
    modeOf self._DQ init (readEvents self cmd w) = some PinMode.OUTPUT := by
  simp [modeOf, readEvents, commandEvents, receiveEvents, startEvents, pulse, samplePulse,
    List.range, List.range.loop]

theorem modeOf_plainEvents (self : DS1620) (cmd : Int) (init : Option PinMode) :
    modeOf self._DQ init (plainEvents self cmd) = init := by
  simp [modeOf, plainEvents, commandEvents, startEvents, pulse, List.range, List.range.loop]

theorem modeOf_thresholdEvents (self : DS1620) (cmd scaled : Int) (init : Option PinMode) :
    modeOf self._DQ init (thresholdEvents self cmd scaled) = init := by
  simp [modeOf, thresholdEvents, startEvents, pulse, List.range, List.range.loop]

theorem modeOf_configEvents (self : DS1620) (v : Int) (init : Option PinMode) :
    modeOf self._DQ init (configEvents self v) = init := by
  simp [modeOf, configEvents, commandEvents, startEvents, pulse, List.range, List.range.loop]

/-- An operation that finds DATA an output leaves it an output. -/
theorem modeOf_events (self : DS1620) (op : Op) (w : World) :
    modeOf self._DQ (some PinMode.OUTPUT) (op.events self w) = some PinMode.OUTPUT := by
  cases op with
  | write_th t => exact modeOf_thresholdEvents self _ _ _
  | write_tl t => exact modeOf_thresholdEvents self _ _ _
  | start_conv => exact modeOf_plainEvents self _ _
  | stop_conv => exact modeOf_plainEvents self _ _
  | write_config v =>
    by_cases hv : v > 0
    · simp only [Op.events, hv, if_true, modeOf_append, modeOf_readEvents]
    · simp [Op.events, hv, modeOf]
  | _ => exact modeOf_readEvents self _ w _

/-- The last write of a trace that ends with a write to `pin`. -/
theorem lastWrite_of_getLast (pin v : Int) (init : Option Int) (es : List Event)
    (h : es.getLast? = some (Event.digitalWrite pin v)) :
    lastWrite pin init es = some v := by
  obtain ⟨ys, rfl⟩ := List.getLast?_eq_some_iff.mp h
  simp [lastWrite]

theorem lastClock_readEvents (self : DS1620) (h : self._CLK ≠ self._RST) (cmd : Int) (w : World)
    (init : Option Int) :
    lastWrite self._CLK init (readEvents self cmd w) = some HIGH := by
  have hs : self._RST ≠ self._CLK := fun e => h e.symm
  simp [lastWrite, readEvents, commandEvents, receiveEvents, startEvents, pulse, samplePulse,
    List.range, List.range.loop, hs]

theorem lastClock_plainEvents (self : DS1620) (h : self._CLK ≠ self._RST) (cmd : Int)
    (init : Option Int) :
    lastWrite self._CLK init (plainEvents self cmd) = some HIGH := by
  have hs : self._RST ≠ self._CLK := fun e => h e.symm
  simp [lastWrite, plainEvents, commandEvents, startEvents, pulse, List.range, List.range.loop,
    hs]

theorem lastClock_thresholdEvents (self : DS1620) (h : self._CLK ≠ self._RST) (cmd scaled : Int)
    (init : Option Int) :
    lastWrite self._CLK init (thresholdEvents self cmd scaled) = some HIGH := by
  have hs : self._RST ≠ self._CLK := fun e => h e.symm
  simp [lastWrite, thresholdEvents, startEvents, pulse, List.range, List.range.loop, hs]

/-- When CLOCK and RESET are different pins, an operation that reaches the
lines leaves CLOCK high. -/
theorem lastClock_events (self : DS1620) (h : self._CLK ≠ self._RST) (op : Op) (w : World)
    (hio : op.performsIO = true) (init : Option Int) :
    lastWrite self._CLK init (op.events self w) = some HIGH := by
  cases op with
  | write_th t => exact lastClock_thresholdEvents self h _ _ _
  | write_tl t => exact lastClock_thresholdEvents self h _ _ _
  | start_conv => exact lastClock_plainEvents self h _ _
  | stop_conv => exact lastClock_plainEvents self h _ _
  | write_config v =>
    have hv : v > 0 := by simpa [Op.performsIO] using hio
    simp only [Op.events, hv, if_true, lastWrite_append]
    exact lastClock_readEvents self h _ w _
  | _ => exact lastClock_readEvents self h _ w _

theorem runAll_append (ops : List Op) (op : Op) (s : DS1620 × World) :
    runAll (ops ++ [op]) s = op.run (runAll ops s) := by
  simp [runAll]

/-- No call changes the object. -/
theorem runAll_fst (ops : List Op) (s : DS1620 × World) : (runAll ops s).1 = s.1 := by
  induction ops generalizing s with
  | nil => rfl
  | cons op ops ih =>
    show (runAll ops (op.run s)).1 = s.1
    rw [ih]; rfl

theorem run_trace (op : Op) (s : DS1620 × World) :
    (op.run s).2.trace = s.2.trace ++ op.events s.1 s.2 := by
  simp [Op.run, exec_eq]

/-- Construction leaves the three lines outputs. -/
theorem new_modes (DQ CLK RST : Int) (w0 : World) :
    modeOf DQ none (new DQ CLK RST w0).2.trace = some PinMode.OUTPUT
      ∧ modeOf CLK none (new DQ CLK RST w0).2.trace = some PinMode.OUTPUT
      ∧ modeOf RST none (new DQ CLK RST w0).2.trace = some PinMode.OUTPUT := by
  simp [new, pinMode, modeOf]

/-- DATA is an output after any sequence of calls on a constructed object. -/
theorem runAll_mode (ops : List Op) (s : DS1620 × World)
    (h : modeOf s.1._DQ none s.2.trace = some PinMode.OUTPUT) :
    modeOf s.1._DQ none (runAll ops s).2.trace = some PinMode.OUTPUT := by
  induction ops generalizing s with
  | nil => exact h
  | cons op ops ih =>
    show modeOf s.1._DQ none (runAll ops (op.run s)).2.trace = some PinMode.OUTPUT
    have h2 : modeOf (op.run s).1._DQ none (op.run s).2.trace = some PinMode.OUTPUT := by
      rw [run_trace, modeOf_append]
      show modeOf s.1._DQ (modeOf s.1._DQ none s.2.trace) _ = _
      rw [h, modeOf_events]
    exact ih (op.run s) h2

/-- C18, as stated, fails when CLOCK and RESET share a pin, a wiring the
constructor accepts: on the object made by `new 1 3 3`, `start_conv` performs
I/O and the last level written to the CLOCK pin is low, not high, because the
closing RESET low is a write to the same pin. -/
theorem idle_clock_shared_pin :
    (Op.run Op.start_conv (new 1 3 3 (World.start (bitsOf 0)))).1._CLK = 3
      ∧ Op.start_conv.performsIO = true
      ∧ lastWrite 3 none (Op.run Op.start_conv (new 1 3 3 (World.start (bitsOf 0)))).2.trace
          = some LOW
      ∧ lastWrite 3 none (Op.run Op.start_conv (new 1 3 3 (World.start (bitsOf 0)))).2.trace
          ≠ some HIGH := by
  decide

/-- C18, amended: on an object made by the constructor, which leaves the three
lines outputs, after any sequence of public operations and after one more
operation `op` the object still holds the three pins it was given and the
direction last given to DATA is output; if `op` reaches the lines (every
operation but `write_config` of a value that is not positive), the last level
written to RESET is low and, when CLOCK and RESET are different pins, the last
level written to CLOCK is high. -/
theorem idle_invariant (DQ CLK RST : Int) (w0 : World) (ops : List Op) (op : Op) :
    (runAll ops (new DQ CLK RST w0)).1 = ⟨DQ, CLK, RST⟩
      ∧ (op.run (runAll ops (new DQ CLK RST w0))).1 = ⟨DQ, CLK, RST⟩
      ∧ modeOf DQ none (new DQ CLK RST w0).2.trace = some PinMode.OUTPUT
      ∧ modeOf CLK none (new DQ CLK RST w0).2.trace = some PinMode.OUTPUT
      ∧ modeOf RST none (new DQ CLK RST w0).2.trace = some PinMode.OUTPUT
      ∧ modeOf DQ none (runAll ops (new DQ CLK RST w0)).2.trace = some PinMode.OUTPUT
      ∧ modeOf DQ none (op.run (runAll ops (new DQ CLK RST w0))).2.trace
          = some PinMode.OUTPUT
      ∧ (op.performsIO = true →
          lastWrite RST none (op.run (runAll ops (new DQ CLK RST w0))).2.trace = some LOW
            ∧ (CLK ≠ RST →
              lastWrite CLK none (op.run (runAll ops (new DQ CLK RST w0))).2.trace
                = some HIGH)) := by
  have hm := new_modes DQ CLK RST w0
  have hobj : (runAll ops (new DQ CLK RST w0)).1 = ⟨DQ, CLK, RST⟩ := by
    rw [runAll_fst]; rfl
  have hall : ∀ l : List Op,
      modeOf DQ none (runAll l (new DQ CLK RST w0)).2.trace = some PinMode.OUTPUT :=
    fun l => runAll_mode l (new DQ CLK RST w0) hm.1
  refine ⟨hobj, ?_, hm.1, hm.2.1, hm.2.2, hall ops, ?_, ?_⟩
  · show (runAll ops (new DQ CLK RST w0)).1 = _
    exact hobj
  · rw [← runAll_append]; exact hall _
  · intro hio
    rw [run_trace, hobj]
    refine ⟨?_, ?_⟩
    · exact lastWrite_of_getLast RST LOW none _
        (by
          rw [List.getLast?_append]
          rw [(events_frame ⟨DQ, CLK, RST⟩ op _ hio).2]
          rfl)
    · intro hne
      rw [lastWrite_append]
      exact lastClock_events ⟨DQ, CLK, RST⟩ hne op _ hio _

/-- After construction, `read_temp`, a rejected `write_config` and then
`write_th 25`: DATA is an output, RESET was last written low and CLOCK high. -/
theorem idle_invariant_witness :
    modeOf 1 none (Op.run (Op.write_th 25)
        (runAll [Op.read_temp, Op.write_config 0] (new 1 2 3 (World.start (bitsOf 20))))).2.trace
        = some PinMode.OUTPUT
      ∧ lastWrite 3 none (Op.run (Op.write_th 25)
        (runAll [Op.read_temp, Op.write_config 0] (new 1 2 3 (World.start (bitsOf 20))))).2.trace
        = some LOW
      ∧ lastWrite 2 none (Op.run (Op.write_th 25)
        (runAll [Op.read_temp, Op.write_config 0] (new 1 2 3 (World.start (bitsOf 20))))).2.trace
        = some HIGH :=
  ⟨(idle_invariant 1 2 3 (World.start (bitsOf 20)) [Op.read_temp, Op.write_config 0]
      (Op.write_th 25)).2.2.2.2.2.2.1,
    ((idle_invariant 1 2 3 (World.start (bitsOf 20)) [Op.read_temp, Op.write_config 0]
      (Op.write_th 25)).2.2.2.2.2.2.2 (by decide)).1,
    ((idle_invariant 1 2 3 (World.start (bitsOf 20)) [Op.read_temp, Op.write_config 0]
      (Op.write_th 25)).2.2.2.2.2.2.2 (by decide)).2 (by decide)⟩

end DS1620
